import Mathlib

/-!
# JuiceFS metadata interface (`meta/interface.go`)

A shallow embedding of the constants, the `Attr` and `Slice` records and the
functions `typeToStatType` and `Attr.SMode` of `meta/interface.go`.
Machine integers are natural numbers; the width of a field is stated as a bound
where it matters.  A Go `panic` is the value `none`.

The interface `Meta` is declared in `interface.go` without an implementation.  The
record locks (`Getlk`, `Setlk`) and the structural operations of the namespace
(`Mknod` ... `Rename`) are therefore modelled from the specification; each such
definition says so in its doc comment.
-/

namespace Meta

/-! ## Constants -/

/-- Number of bits of a chunk: `CHUNKBITS = 26 // 64M`. -/
def CHUNKBITS : Nat := 26
/-- Size of a chunk: `CHUNKSIZE = 1 << CHUNKBITS`. -/
def CHUNKSIZE : Nat := 1 <<< CHUNKBITS
/-- Mask of the offset inside a chunk: `CHUNKMASK = CHUNKSIZE - 1`. -/
def CHUNKMASK : Nat := CHUNKSIZE - 1
/-- The constant `CHUNK_DEL = 1000`. -/
def CHUNK_DEL : Nat := 1000

def TYPE_FILE : Nat := 1
def TYPE_DIRECTORY : Nat := 2
def TYPE_SYMLINK : Nat := 3
def TYPE_FIFO : Nat := 4
def TYPE_BLOCKDEV : Nat := 5
def TYPE_CHARDEV : Nat := 6
def TYPE_SOCKET : Nat := 7

/-- The seven inode types, in the order of their declaration. -/
def inodeTypes : List Nat :=
  [TYPE_FILE, TYPE_DIRECTORY, TYPE_SYMLINK, TYPE_FIFO, TYPE_BLOCKDEV, TYPE_CHARDEV, TYPE_SOCKET]

/-! The `SET_ATTR_*` block is `1 << iota` with `iota` running from 0. -/

def SET_ATTR_MODE : Nat := 1 <<< 0
def SET_ATTR_UID : Nat := 1 <<< 1
def SET_ATTR_GID : Nat := 1 <<< 2
def SET_ATTR_SIZE : Nat := 1 <<< 3
def SET_ATTR_ATIME : Nat := 1 <<< 4
def SET_ATTR_MTIME : Nat := 1 <<< 5
def SET_ATTR_CTIME : Nat := 1 <<< 6
def SET_ATTR_ATIME_NOW : Nat := 1 <<< 7
def SET_ATTR_MTIME_NOW : Nat := 1 <<< 8

/-- The nine `SET_ATTR_*` flags, in the order of their declaration. -/
def setAttrFlags : List Nat :=
  [SET_ATTR_MODE, SET_ATTR_UID, SET_ATTR_GID, SET_ATTR_SIZE, SET_ATTR_ATIME,
   SET_ATTR_MTIME, SET_ATTR_CTIME, SET_ATTR_ATIME_NOW, SET_ATTR_MTIME_NOW]

def FALLOC_KEEP_SIZE : Nat := 0x01
def FALLOC_PUNCH_HOLE : Nat := 0x02
/-- Reserved. -/
def FALLOC_NO_HIDE_STALE : Nat := 0x04
def FALLOC_COLLAPSE_RANGE : Nat := 0x08
def FALLOC_ZERO_RANGE : Nat := 0x10
def FALLOC_INSERT_RANGE : Nat := 0x20

/-- The six `FALLOC_*` flags, in the order of their declaration. -/
def fallocFlags : List Nat :=
  [FALLOC_KEEP_SIZE, FALLOC_PUNCH_HOLE, FALLOC_NO_HIDE_STALE,
   FALLOC_COLLAPSE_RANGE, FALLOC_ZERO_RANGE, FALLOC_INSERT_RANGE]

def POSIX_LOCK_CMD_GET : Nat := 0
def POSIX_LOCK_CMD_SET : Nat := 1
def POSIX_LOCK_CMD_TRY : Nat := 2
def POSIX_LOCK_CMD_INT : Nat := 3

def POSIX_LOCK_UNLCK : Nat := 0
def POSIX_LOCK_RDLCK : Nat := 1
def POSIX_LOCK_WRLCK : Nat := 2
def POSIX_LOCK_INVALID : Nat := 3

/-! ## File-type bits of Go's `syscall` package

`syscall.S_IF*` belong to the Go standard library, not to this repository; the
values are those of `syscall` on Linux and on Darwin (octal). -/

def S_IFMT : Nat := 0o170000
def S_IFSOCK : Nat := 0o140000
def S_IFLNK : Nat := 0o120000
def S_IFREG : Nat := 0o100000
def S_IFBLK : Nat := 0o060000
def S_IFDIR : Nat := 0o040000
def S_IFCHR : Nat := 0o020000
def S_IFIFO : Nat := 0o010000

/-! ## Records -/

/-- The record `Attr`; every field is an unsigned or signed machine integer of
the width given in the source (`Flags`, `Typ`: 8 bits, `Mode`: 16 bits, ...). -/
structure Attr where
  Flags : Nat
  Typ : Nat
  Mode : Nat
  Uid : Nat
  Gid : Nat
  Atime : Int
  Mtime : Int
  Ctime : Int
  Atimensec : Nat
  Mtimensec : Nat
  Ctimensec : Nat
  Nlink : Nat
  Length : Nat
  Rdev : Nat
  Full : Bool
  deriving DecidableEq, Repr

/-- The record `Slice` (`Chunkid`: 64 bits, the other fields: 32 bits). -/
structure Slice where
  Chunkid : Nat
  Clen : Nat
  Off : Nat
  Len : Nat
  deriving DecidableEq, Repr

/-! ## Functions -/

/-- The function `typeToStatType`: a `switch` on `_type & 0x7F` whose `default`
branch panics (`none`). -/
def typeToStatType (_type : Nat) : Option Nat :=
  let t := _type &&& 0x7F
  if t = TYPE_DIRECTORY then some S_IFDIR
  else if t = TYPE_SYMLINK then some S_IFLNK
  else if t = TYPE_FILE then some S_IFREG
  else if t = TYPE_FIFO then some S_IFIFO
  else if t = TYPE_SOCKET then some S_IFSOCK
  else if t = TYPE_BLOCKDEV then some S_IFBLK
  else if t = TYPE_CHARDEV then some S_IFCHR
  else none

/-- The method `Attr.SMode`: `typeToStatType(a.Typ) | uint32(a.Mode)`; it panics
when `typeToStatType` does. -/
def Attr.SMode (a : Attr) : Option Nat :=
  (typeToStatType a.Typ).map (fun st => st ||| a.Mode)

/-! ## Lock Manager: POSIX record locks

`interface.go` declares `Getlk` and `Setlk` and the `POSIX_LOCK_*` constants; the
implementation is not part of the source at hand.  The definitions of this
section follow sections 3 and 4.3 of the specification. -/

/-- Modelled from the spec: a POSIX record lock ("a set of ... (start, end, type) ranges per
inode, where type is one of unlocked/read/write, plus the holding process id for reporting"),
tagged with its owner.  The range is the half-open byte range `[start, end_)`. -/
structure PLock where
  owner : Nat
  pid : Nat
  ltype : Nat
  start : Nat
  end_ : Nat
  deriving DecidableEq, Repr

/-- Modelled from the spec: the lock-state records of the Lock Manager, the record locks of
each inode in the order in which they are stored. -/
abbrev LockTable := Nat → List PLock

/-- Modelled from the spec: the lock table with the records of `inode` replaced. -/
def LockTable.set (tbl : LockTable) (inode : Nat) (ls : List PLock) : LockTable :=
  fun i => if i = inode then ls else tbl i

/-- Modelled from the spec: a record shares a byte with the range `[start, end_)`. -/
def PLock.overlaps (r : PLock) (start end_ : Nat) : Bool :=
  decide (r.start < end_ ∧ start < r.end_ ∧ r.start < r.end_ ∧ start < end_)

/-- Modelled from the spec: the read/write compatibility rule of section 4.3 ("exclusive
conflicts with any other owner; shared conflicts only with another owner's exclusive"): a
write request conflicts with a held read or write lock, a read request with a held write
lock. -/
def lockConflict (req held : Nat) : Bool :=
  (req == POSIX_LOCK_WRLCK && (held == POSIX_LOCK_RDLCK || held == POSIX_LOCK_WRLCK)) ||
  (req == POSIX_LOCK_RDLCK && held == POSIX_LOCK_WRLCK)

/-- Modelled from the spec: what is left of the record `r` once the bytes `[start, end_)` are
taken out of it ("release of a partial range splits the remaining locked sub-ranges"): the part
below `start` and the part from `end_` on. -/
def PLock.cut (r : PLock) (start end_ : Nat) : List PLock :=
  if r.overlaps start end_ then
    (if r.start < start then [{ r with end_ := start }] else []) ++
    (if end_ < r.end_ then [{ r with start := end_ }] else [])
  else [r]

/-- Modelled from the spec: the result of a `Getlk` probe, the out-parameters `ltype`, `start`, `end` and `pid`. -/
structure GetlkResult where
  ltype : Nat
  start : Nat
  end_ : Nat
  pid : Nat
  deriving DecidableEq, Repr

/-- Modelled from the spec: `Getlk`, the "non-mutating conflict probe; returns the first
conflicting range/type/pid or an unlocked result": the first stored record of another owner
that overlaps the probed range and whose type conflicts with the probed type; when there is
none, type `POSIX_LOCK_UNLCK` with the probed range and pid 0. -/
def Getlk (tbl : LockTable) (inode owner ltype start end_ : Nat) : GetlkResult :=
  match (tbl inode).find?
      (fun r => decide (r.owner ≠ owner) && r.overlaps start end_ && lockConflict ltype r.ltype) with
  | some r => ⟨r.ltype, r.start, r.end_, r.pid⟩
  | none => ⟨POSIX_LOCK_UNLCK, start, end_, 0⟩

/-- Modelled from the spec: the outcome of a `Setlk` call. -/
inductive SetlkOutcome where
  /-- The range was locked or released. -/
  | done
  /-- A conflicting lock is held and `block` is false: *would-block*. -/
  | wouldBlock
  /-- A conflicting lock is held and `block` is true: the caller is suspended. -/
  | suspended
  /-- The lock type is neither unlocked, read nor write: *invalid-argument*. -/
  | invalid
  deriving DecidableEq, Repr

/-- Modelled from the spec: `Setlk` on the byte range `[start, end_)` (section 4.3).
* type unlocked: the range is taken out of every record of the owner, splitting a record that
  reaches beyond it;
* type read or write: when a record of another owner overlaps the range with a conflicting
  type, nothing changes and the call fails with *would-block* (`block` false) or suspends
  (`block` true); otherwise the records of the owner that overlap the range with the same type
  are merged with it into one record, the range is taken out of the other records of the
  owner, and the merged record is stored last. -/
def Setlk (tbl : LockTable) (inode owner : Nat) (block : Bool) (ltype start end_ pid : Nat) :
    SetlkOutcome × LockTable :=
  let ls := tbl inode
  if ltype = POSIX_LOCK_UNLCK then
    (.done, tbl.set inode
      (ls.flatMap (fun r => if r.owner = owner then r.cut start end_ else [r])))
  else if ltype = POSIX_LOCK_RDLCK ∨ ltype = POSIX_LOCK_WRLCK then
    if ls.any (fun r =>
        decide (r.owner ≠ owner) && r.overlaps start end_ && lockConflict ltype r.ltype) then
      (if block then .suspended else .wouldBlock, tbl)
    else
      let same := ls.filter (fun r =>
        decide (r.owner = owner) && decide (r.ltype = ltype) && r.overlaps start end_)
      let lo := same.foldl (fun a r => min a r.start) start
      let hi := same.foldl (fun a r => max a r.end_) end_
      let rest := ls.flatMap (fun r =>
        if r.owner = owner then
          (if r.ltype = ltype ∧ r.overlaps start end_ = true then [] else r.cut start end_)
        else [r])
      (.done, tbl.set inode (rest ++ [⟨owner, pid, ltype, lo, hi⟩]))
  else (.invalid, tbl)

/-! ## Namespace Manager

`interface.go` declares the operations `Mknod`, `Mkdir`, `Create`, `Symlink`, `Link`,
`Unlink`, `Rmdir` and `Rename`; their implementation is not part of the source at hand.  The
definitions of this section follow sections 3, 4.1 and 8 of the specification.  Link counts
follow "standard POSIX rules", as section 3 says: besides its stored entries a directory is
referenced by its own `.` and by the `..` of every child directory ("self + parent reference
implied", section 8), and a link count never leaves the 32 bits of the field `Nlink`
(*too-many-links*).  Where the specification is silent (the error of `Unlink` on a directory,
of `Rmdir` on a non-directory, a rename onto another name of the same inode) the definitions
follow POSIX as well. -/

/-- Modelled from the spec: the request context `Context` ("caller identity, process id"),
with the time of the request; the type is declared outside `interface.go`. -/
structure Context where
  uid : Nat
  gid : Nat
  pid : Nat
  now : Int
  nowNsec : Nat
  deriving DecidableEq, Repr

/-- Modelled from the spec: a stored directory entry, "a (parent inode, name) pair mapping to
a child inode". -/
structure Dentry where
  parent : Nat
  name : String
  inode : Nat
  deriving DecidableEq, Repr

/-- Modelled from the spec: the records the Namespace Manager owns: the inode records, the
stored directory entries, the targets of the symlinks, and the next inode id to allocate. -/
structure Namespace where
  attrs : Nat → Option Attr
  entries : List Dentry
  symlinks : Nat → Option String
  nextInode : Nat

/-! Error codes of Go's `syscall` package (Linux), the `syscall.Errno` results. -/

def ENOENT : Nat := 2
def EACCES : Nat := 13
def EEXIST : Nat := 17
def ENOTDIR : Nat := 20
def EISDIR : Nat := 21
def EINVAL : Nat := 22
def EMLINK : Nat := 31
def ENOTEMPTY : Nat := 39

/-- Modelled from the spec: the inode of the root directory. -/
def rootInode : Nat := 1

/-- Modelled from the spec: the largest link count the 32-bit field `Nlink` holds. -/
def maxNlink : Nat := 2 ^ 32 - 1

/-- Modelled from the spec: the namespace that holds the root directory only; its link count
is 2, for its `.` and its `..`. -/
def Namespace.init : Namespace where
  attrs := fun i =>
    if i = rootInode then
      some ⟨0, TYPE_DIRECTORY, 0o777, 0, 0, 0, 0, 0, 0, 0, 0, 2, 0, 0, true⟩
    else none
  entries := []
  symlinks := fun _ => none
  nextInode := rootInode + 1

/-- Modelled from the spec: the inode has a record and the record is a directory. -/
def isDir (attrs : Nat → Option Attr) (inode : Nat) : Bool :=
  match attrs inode with
  | some a => decide (a.Typ = TYPE_DIRECTORY)
  | none => false

/-- Modelled from the spec: the number of stored directory entries, over all parents, that
reference an inode. -/
def storedRefs (entries : List Dentry) (inode : Nat) : Nat :=
  entries.countP (fun d => decide (d.inode = inode))

/-- Modelled from the spec: the number of child directories of an inode, each of which
references the inode by its `..`. -/
def childDirRefs (attrs : Nat → Option Attr) (entries : List Dentry) (inode : Nat) : Nat :=
  entries.countP (fun d => decide (d.parent = inode) && isDir attrs d.inode)

/-- Modelled from the spec: the stored entries that reference an inode. -/
def Namespace.linkCount (ns : Namespace) (inode : Nat) : Nat :=
  storedRefs ns.entries inode

/-- Modelled from the spec: "the number of directory entries (across all parents) referencing
the inode", by the standard POSIX rules: the stored entries; the `.` of the inode when it is a
directory of the namespace (the root, or a directory with a stored entry); the `..` of each
of its child directories; and for the root its own `..`. -/
def Namespace.refCount (ns : Namespace) (inode : Nat) : Nat :=
  storedRefs ns.entries inode +
  (if isDir ns.attrs inode = true ∧ (inode = rootInode ∨ 0 < storedRefs ns.entries inode)
    then 1 else 0) +
  childDirRefs ns.attrs ns.entries inode +
  (if inode = rootInode then 1 else 0)

/-- Modelled from the spec: the entry of `name` in `parent`, if there is one. -/
def Namespace.lookupEntry (ns : Namespace) (parent : Nat) (name : String) : Option Dentry :=
  ns.entries.find? (fun d => d.parent = parent ∧ d.name = name)

/-- Modelled from the spec: the directory "still has entries". -/
def Namespace.hasEntries (ns : Namespace) (dir : Nat) : Bool :=
  ns.entries.any (fun d => d.parent = dir)

/-- Modelled from the spec: the permission bits (read 4, write 2, search 1) the caller has on
an inode: all for uid 0, else those of the owner, the group or the others. -/
def accessBits (ctx : Context) (a : Attr) : Nat :=
  if ctx.uid = 0 then 7
  else if ctx.uid = a.Uid then (a.Mode >>> 6) &&& 7
  else if ctx.gid = a.Gid then (a.Mode >>> 3) &&& 7
  else a.Mode &&& 7

/-- Modelled from the spec: "write/search permission" on a directory. -/
def mayModify (ctx : Context) (dir : Attr) : Bool :=
  accessBits ctx dir &&& 3 == 3

/-- Modelled from the spec: the inode records with `f` applied to the record of `inode`. -/
def updAttr (attrs : Nat → Option Attr) (inode : Nat) (f : Attr → Attr) : Nat → Option Attr :=
  fun j => if j = inode then (attrs j).map f else attrs j

/-- Modelled from the spec: a directory whose entries change gets a new modification (and
change) time. -/
def touchDir (ctx : Context) (a : Attr) : Attr :=
  { a with Mtime := ctx.now, Mtimensec := ctx.nowNsec, Ctime := ctx.now,
           Ctimensec := ctx.nowNsec }

/-- Modelled from the spec: an inode whose links change gets a new change time. -/
def touchInode (ctx : Context) (a : Attr) : Attr :=
  { a with Ctime := ctx.now, Ctimensec := ctx.nowNsec }

/-- Modelled from the spec: the link count raised by `n`. -/
def addLinks (n : Nat) (a : Attr) : Attr :=
  { a with Nlink := a.Nlink + n }

/-- Modelled from the spec: the link count lowered by `n`. -/
def dropLinks (n : Nat) (a : Attr) : Attr :=
  { a with Nlink := a.Nlink - n }

/-- Modelled from the spec: the creation operations (`Mknod`/`Mkdir`/`Create`/`Symlink`) as
one transaction: the parent is an existing directory the caller may modify, "the name does not
already exist in `parent`", the type is one of the seven inode types, the parent's link count
has headroom; then "allocate a fresh inode id, initialize its attributes (mode combined with
caller umask, owner from caller context, set-group-id inheritance per a `copysgid` flag for
directories), insert the directory entry" and update the parent.  A directory starts with link
count 2 and raises the link count of its parent by its `..`, any other inode starts with link
count 1.  The result is the error code, the new inode and the new state. -/
def Namespace.create (ns : Namespace) (ctx : Context) (parent : Nat) (name : String)
    (_type mode cumask rdev copysgid : Nat) (path : Option String) : Nat × Nat × Namespace :=
  match ns.attrs parent with
  | none => (ENOENT, 0, ns)
  | some pa =>
    if pa.Typ ≠ TYPE_DIRECTORY then (ENOTDIR, 0, ns)
    else if mayModify ctx pa = false then (EACCES, 0, ns)
    else if (ns.lookupEntry parent name).isSome then (EEXIST, 0, ns)
    else if _type ∉ inodeTypes then (EINVAL, 0, ns)
    else if maxNlink ≤ pa.Nlink then (EMLINK, 0, ns)
    else
      let ino := ns.nextInode
      let sgid : Bool := _type = TYPE_DIRECTORY ∧ copysgid ≠ 0 ∧ pa.Mode &&& 0o2000 ≠ 0
      let attr : Attr :=
        { Flags := 0, Typ := _type,
          Mode := (mode &&& (0xFFFF ^^^ cumask)) ||| (if sgid then 0o2000 else 0),
          Uid := ctx.uid, Gid := if sgid then pa.Gid else ctx.gid,
          Atime := ctx.now, Mtime := ctx.now, Ctime := ctx.now,
          Atimensec := ctx.nowNsec, Mtimensec := ctx.nowNsec, Ctimensec := ctx.nowNsec,
          Nlink := if _type = TYPE_DIRECTORY then 2 else 1,
          Length := match path with
            | some target => target.utf8ByteSize
            | none => 0,
          Rdev := rdev, Full := true }
      let parentAttrs := updAttr ns.attrs parent (fun a =>
        touchDir ctx (addLinks (if _type = TYPE_DIRECTORY then 1 else 0) a))
      (0, ino,
        { attrs := fun j => if j = ino then some attr else parentAttrs j
          entries := ⟨parent, name, ino⟩ :: ns.entries
          symlinks := fun j => if j = ino then path else ns.symlinks j
          nextInode := ino + 1 })

/-- Modelled from the spec: `Mknod`. -/
def Mknod (ns : Namespace) (ctx : Context) (parent : Nat) (name : String)
    (_type mode cumask rdev : Nat) : Nat × Nat × Namespace :=
  ns.create ctx parent name _type mode cumask rdev 0 none

/-- Modelled from the spec: `Mkdir`. -/
def Mkdir (ns : Namespace) (ctx : Context) (parent : Nat) (name : String)
    (mode cumask copysgid : Nat) : Nat × Nat × Namespace :=
  ns.create ctx parent name TYPE_DIRECTORY mode cumask 0 copysgid none

/-- Modelled from the spec: `Create`. -/
def Create (ns : Namespace) (ctx : Context) (parent : Nat) (name : String)
    (mode cumask : Nat) : Nat × Nat × Namespace :=
  ns.create ctx parent name TYPE_FILE mode cumask 0 0 none

/-- Modelled from the spec: `Symlink`. -/
def Symlink (ns : Namespace) (ctx : Context) (parent : Nat) (name : String) (path : String) :
    Nat × Nat × Namespace :=
  ns.create ctx parent name TYPE_SYMLINK 0o777 0 0 0 (some path)

/-- Modelled from the spec: `Link` "creates an additional directory entry for an existing
inode; disallowed for directories (fails *is-a-directory*) and increments `Nlink`".  The link
count must have headroom in its 32 bits (*too-many-links*), as the spec asks of the parent in
the creation operations. -/
def Link (ns : Namespace) (ctx : Context) (inodeSrc parent : Nat) (name : String) :
    Nat × Namespace :=
  match ns.attrs parent with
  | none => (ENOENT, ns)
  | some pa =>
    if pa.Typ ≠ TYPE_DIRECTORY then (ENOTDIR, ns)
    else if mayModify ctx pa = false then (EACCES, ns)
    else
      match ns.attrs inodeSrc with
      | none => (ENOENT, ns)
      | some sa =>
        if sa.Typ = TYPE_DIRECTORY then (EISDIR, ns)
        else if (ns.lookupEntry parent name).isSome then (EEXIST, ns)
        else if maxNlink ≤ sa.Nlink then (EMLINK, ns)
        else
          (0, { ns with
            attrs := updAttr
              (updAttr ns.attrs inodeSrc (fun a => touchInode ctx (addLinks 1 a)))
              parent (touchDir ctx)
            entries := ⟨parent, name, inodeSrc⟩ :: ns.entries })

/-- Modelled from the spec: `Unlink` removes the entry and decrements the target's `Nlink`
(reclamation of an inode whose link count reached zero is deferred: its record stays).  A
directory is not unlinked (*is-a-directory*). -/
def Unlink (ns : Namespace) (ctx : Context) (parent : Nat) (name : String) : Nat × Namespace :=
  match ns.attrs parent with
  | none => (ENOENT, ns)
  | some pa =>
    if pa.Typ ≠ TYPE_DIRECTORY then (ENOTDIR, ns)
    else if mayModify ctx pa = false then (EACCES, ns)
    else
      match ns.lookupEntry parent name with
      | none => (ENOENT, ns)
      | some d =>
        match ns.attrs d.inode with
        | none => (ENOENT, ns)
        | some a =>
          if a.Typ = TYPE_DIRECTORY then (EISDIR, ns)
          else
            (0, { ns with
              attrs := updAttr
                (updAttr ns.attrs d.inode (fun a => touchInode ctx (dropLinks 1 a)))
                parent (touchDir ctx)
              entries := ns.entries.erase d })

/-- Modelled from the spec: `Rmdir` removes the entry of a directory and lowers the target's
`Nlink`; it "fails with *not-empty* if the directory still has entries".  With the entry the
`.` of the directory goes and its link count drops from 2 to zero, and with its `..` the link
count of the parent drops by one. -/
def Rmdir (ns : Namespace) (ctx : Context) (parent : Nat) (name : String) : Nat × Namespace :=
  match ns.attrs parent with
  | none => (ENOENT, ns)
  | some pa =>
    if pa.Typ ≠ TYPE_DIRECTORY then (ENOTDIR, ns)
    else if mayModify ctx pa = false then (EACCES, ns)
    else
      match ns.lookupEntry parent name with
      | none => (ENOENT, ns)
      | some d =>
        match ns.attrs d.inode with
        | none => (ENOENT, ns)
        | some a =>
          if a.Typ ≠ TYPE_DIRECTORY then (ENOTDIR, ns)
          else if ns.hasEntries d.inode then (ENOTEMPTY, ns)
          else
            (0, { ns with
              attrs := updAttr
                (updAttr ns.attrs d.inode (fun a => touchInode ctx (dropLinks 2 a)))
                parent (fun a => touchDir ctx (dropLinks 1 a))
              entries := ns.entries.erase d })

/-- Modelled from the spec: `anc` is `dir` or one of its ancestors, following the entries
upwards for at most `fuel` steps. -/
def Namespace.isAncestor (ns : Namespace) (anc : Nat) : Nat → Nat → Bool
  | 0, _ => false
  | fuel + 1, dir =>
    dir = anc ||
      match ns.entries.find? (fun d => d.inode = dir) with
      | none => false
      | some d => ns.isAncestor anc fuel d.parent

/-- Modelled from the spec: `Rename` as one transaction.  The source must exist (*not-found*);
a directory is not moved into itself or a descendant (*invalid-argument*); an existing
destination is replaced when it is a non-directory under a non-directory or an empty directory
under a directory, "old destination's link count decremented" (to zero for a directory, whose
`.` goes with its entry); a non-empty directory is not replaced (*not-empty*), a directory is
not replaced by a non-directory (*is-a-directory*) nor a non-directory by a directory
(*invalid-argument*).  When both names refer to the same inode nothing changes.  A directory
that moves takes its `..` along: the old parent loses a link and the new parent, unless a
directory was replaced there, gains one, for which it must have headroom
(*too-many-links*). -/
def Rename (ns : Namespace) (ctx : Context) (parentSrc : Nat) (nameSrc : String)
    (parentDst : Nat) (nameDst : String) : Nat × Nat × Namespace :=
  match ns.attrs parentSrc, ns.attrs parentDst with
  | some ps, some pd =>
    if ps.Typ ≠ TYPE_DIRECTORY ∨ pd.Typ ≠ TYPE_DIRECTORY then (ENOTDIR, 0, ns)
    else if mayModify ctx ps = false ∨ mayModify ctx pd = false then (EACCES, 0, ns)
    else
      match ns.lookupEntry parentSrc nameSrc with
      | none => (ENOENT, 0, ns)
      | some se =>
        match ns.attrs se.inode with
        | none => (ENOENT, 0, ns)
        | some sa =>
          if sa.Typ = TYPE_DIRECTORY ∧
              ns.isAncestor se.inode (ns.entries.length + 1) parentDst = true then
            (EINVAL, 0, ns)
          else
            match ns.lookupEntry parentDst nameDst with
            | none =>
              let n := if sa.Typ = TYPE_DIRECTORY ∧ parentSrc ≠ parentDst then 1 else 0
              if n = 1 ∧ maxNlink ≤ pd.Nlink then (EMLINK, 0, ns)
              else
                (0, se.inode, { ns with
                  attrs := updAttr
                    (updAttr (updAttr ns.attrs se.inode (touchInode ctx))
                      parentSrc (fun a => touchDir ctx (dropLinks n a)))
                    parentDst (fun a => touchDir ctx (addLinks n a))
                  entries := ⟨parentDst, nameDst, se.inode⟩ :: ns.entries.erase se })
            | some de =>
              if de.inode = se.inode then (0, se.inode, ns)
              else
                match ns.attrs de.inode with
                | none => (ENOENT, 0, ns)
                | some da =>
                  if sa.Typ ≠ TYPE_DIRECTORY ∧ da.Typ = TYPE_DIRECTORY then (EISDIR, 0, ns)
                  else if sa.Typ = TYPE_DIRECTORY ∧ da.Typ ≠ TYPE_DIRECTORY then (EINVAL, 0, ns)
                  else if da.Typ = TYPE_DIRECTORY ∧ ns.hasEntries de.inode = true then
                    (ENOTEMPTY, 0, ns)
                  else
                    (0, se.inode, { ns with
                      attrs := updAttr
                        (updAttr
                          (updAttr
                            (updAttr ns.attrs de.inode (fun a =>
                              touchInode ctx
                                (dropLinks (if da.Typ = TYPE_DIRECTORY then 2 else 1) a)))
                            se.inode (touchInode ctx))
                          parentSrc (fun a =>
                            touchDir ctx
                              (dropLinks (if sa.Typ = TYPE_DIRECTORY then 1 else 0) a)))
                        parentDst (touchDir ctx)
                      entries :=
                        ⟨parentDst, nameDst, se.inode⟩ :: (ns.entries.erase se).erase de })
  | _, _ => (ENOENT, 0, ns)

/-- Modelled from the spec: the states "reachable by committed Meta operations": the initial
namespace and, from a reachable state, the state any call of `Mknod`, `Mkdir`, `Create`,
`Symlink`, `Link`, `Unlink`, `Rmdir` or `Rename` leaves (a failed call leaves the state it
found). -/
inductive Reachable : Namespace → Prop where
  | init : Reachable Namespace.init
  | mknod {ns : Namespace} (h : Reachable ns) (ctx : Context) (parent : Nat) (name : String)
      (_type mode cumask rdev : Nat) :
      Reachable (Mknod ns ctx parent name _type mode cumask rdev).2.2
  | mkdir {ns : Namespace} (h : Reachable ns) (ctx : Context) (parent : Nat) (name : String)
      (mode cumask copysgid : Nat) : Reachable (Mkdir ns ctx parent name mode cumask copysgid).2.2
  | create {ns : Namespace} (h : Reachable ns) (ctx : Context) (parent : Nat) (name : String)
      (mode cumask : Nat) : Reachable (Create ns ctx parent name mode cumask).2.2
  | symlink {ns : Namespace} (h : Reachable ns) (ctx : Context) (parent : Nat) (name : String)
      (path : String) : Reachable (Symlink ns ctx parent name path).2.2
  | link {ns : Namespace} (h : Reachable ns) (ctx : Context) (inodeSrc parent : Nat)
      (name : String) : Reachable (Link ns ctx inodeSrc parent name).2
  | unlink {ns : Namespace} (h : Reachable ns) (ctx : Context) (parent : Nat) (name : String) :
      Reachable (Unlink ns ctx parent name).2
  | rmdir {ns : Namespace} (h : Reachable ns) (ctx : Context) (parent : Nat) (name : String) :
      Reachable (Rmdir ns ctx parent name).2
  | rename {ns : Namespace} (h : Reachable ns) (ctx : Context) (parentSrc : Nat)
      (nameSrc : String) (parentDst : Nat) (nameDst : String) :
      Reachable (Rename ns ctx parentSrc nameSrc parentDst nameDst).2.2

/-- The invariant of the reachable states: every link count is the number of references and
fits 32 bits; no inode at or above `nextInode` has a record; every stored entry references an
inode below `nextInode` other than the root and lies in a directory; a directory has at most
one stored entry; the root is a directory. -/
structure Namespace.Consistent (ns : Namespace) : Prop where
  nlink : ∀ i a, ns.attrs i = some a → a.Nlink = ns.refCount i
  bound : ∀ i a, ns.attrs i = some a → a.Nlink ≤ maxNlink
  fresh : ∀ i, ns.nextInode ≤ i → ns.attrs i = none
  entry : ∀ d ∈ ns.entries,
    d.inode < ns.nextInode ∧ d.inode ≠ rootInode ∧ isDir ns.attrs d.parent = true
  single : ∀ i, isDir ns.attrs i = true → storedRefs ns.entries i ≤ 1
  root : isDir ns.attrs rootInode = true

end Meta

namespace Meta

/-! ## Helper lemmas -/

theorem chunkmask_eq : CHUNKMASK = 2 ^ 26 - 1 := by decide

theorem shift_chunkbits (o : Nat) : o >>> CHUNKBITS = o / 2 ^ 26 := by
  simp [CHUNKBITS, Nat.shiftRight_eq_div_pow]

theorem and_chunkmask (o : Nat) : o &&& CHUNKMASK = o % 2 ^ 26 := by
  rw [chunkmask_eq, Nat.and_pow_two_sub_one_eq_mod]

/-! ## Chunk constants -/

/-- C1: `CHUNKSIZE` is `2^CHUNKBITS = 2^26 = 67108864 = 64 * 1024 * 1024` (64 MiB), and
`CHUNKMASK = CHUNKSIZE - 1` has exactly its low 26 bits set. -/
theorem chunk_size_is_64MiB :
    CHUNKBITS = 26 ∧ CHUNKSIZE = 2 ^ CHUNKBITS ∧ CHUNKSIZE = 2 ^ 26 ∧ CHUNKSIZE = 67108864 ∧
    CHUNKSIZE = 64 * 1024 * 1024 ∧ CHUNKMASK = CHUNKSIZE - 1 ∧
    ∀ i : Nat, CHUNKMASK.testBit i = decide (i < 26) := by
  refine ⟨rfl, by decide, by decide, by decide, by decide, rfl, ?_⟩
  intro i
  rw [chunkmask_eq, Nat.testBit_two_pow_sub_one]

/-- C2: for every 64-bit byte offset `o` (and every second offset `p`), with index `o >> CHUNKBITS` and in-chunk offset
`o & CHUNKMASK`: `o` is `index * CHUNKSIZE + offset` (no overflow), the in-chunk offset is below
`CHUNKSIZE` and fits 32 bits, `o` lies in the byte range of its index; two offsets lie in the
byte range of a common index exactly when their indexes are equal, and the byte ranges of two
different indexes share no offset. -/
theorem chunk_partition (o p : Nat) (ho : o < 2 ^ 64) :
    o = (o >>> CHUNKBITS) * CHUNKSIZE + (o &&& CHUNKMASK) ∧
    (o >>> CHUNKBITS) * CHUNKSIZE + (o &&& CHUNKMASK) < 2 ^ 64 ∧
    (o &&& CHUNKMASK) < CHUNKSIZE ∧ (o &&& CHUNKMASK) < 2 ^ 32 ∧
    ((o >>> CHUNKBITS) * CHUNKSIZE ≤ o ∧ o < ((o >>> CHUNKBITS) + 1) * CHUNKSIZE) ∧
    ((∃ i : Nat, (i * CHUNKSIZE ≤ o ∧ o < (i + 1) * CHUNKSIZE) ∧
        (i * CHUNKSIZE ≤ p ∧ p < (i + 1) * CHUNKSIZE)) ↔
      o >>> CHUNKBITS = p >>> CHUNKBITS) ∧
    (∀ i j : Nat, i ≠ j →
      ¬ ((i * CHUNKSIZE ≤ o ∧ o < (i + 1) * CHUNKSIZE) ∧
         (j * CHUNKSIZE ≤ o ∧ o < (j + 1) * CHUNKSIZE))) := by
  have hcs : CHUNKSIZE = 67108864 := by decide
  rw [shift_chunkbits, shift_chunkbits, and_chunkmask, hcs]
  norm_num only
  refine ⟨by omega, by omega, by omega, by omega, ⟨by omega, by omega⟩, ⟨?_, ?_⟩, ?_⟩
  · rintro ⟨i, ⟨h1, h2⟩, h3, h4⟩
    omega
  · intro h
    exact ⟨o / 67108864, ⟨by omega, by omega⟩, by omega, by omega⟩
  · intro i j hij
    omega

/-- Witness of C2 at the offsets `67108865` (chunk 1, offset 1) and `2^64 - 1`. -/
theorem chunk_partition_witness :
    (67108865 : Nat) >>> CHUNKBITS = 1 ∧ (67108865 : Nat) &&& CHUNKMASK = 1 ∧
    (67108865 = ((67108865 : Nat) >>> CHUNKBITS) * CHUNKSIZE + ((67108865 : Nat) &&& CHUNKMASK)) :=
  ⟨by decide, by decide,
   (chunk_partition 67108865 (2 ^ 64 - 1) (by norm_num)).1⟩

/-! ## Inode types and `SMode` -/

theorem typeToStatType_mask (t : Nat) : typeToStatType (t &&& 0x7F) = typeToStatType t := by
  have h : t &&& 0x7F &&& 0x7F = t &&& 0x7F := by
    rw [Nat.and_assoc, Nat.and_self]
  unfold typeToStatType
  simp only [h]

theorem typeToStatType_isSome_iff (t : Nat) :
    (typeToStatType t).isSome = true ↔ 1 ≤ t &&& 0x7F ∧ t &&& 0x7F ≤ 7 := by
  unfold typeToStatType
  simp only [TYPE_DIRECTORY, TYPE_SYMLINK, TYPE_FILE, TYPE_FIFO, TYPE_SOCKET, TYPE_BLOCKDEV,
    TYPE_CHARDEV]
  constructor
  · intro h
    split_ifs at h <;> first | omega | simp at h
  · rintro ⟨h1, h2⟩
    generalize t &&& 0x7F = u at h1 h2
    interval_cases u <;> rfl

/-- The stat types `typeToStatType` can return. -/
theorem typeToStatType_range (t st : Nat) (h : typeToStatType t = some st) :
    st ∈ [S_IFDIR, S_IFLNK, S_IFREG, S_IFIFO, S_IFSOCK, S_IFBLK, S_IFCHR] := by
  unfold typeToStatType at h
  simp only at h
  split_ifs at h <;> simp_all

/-- A value below `2^12` has no bit in common with `S_IFMT`. -/
theorem and_S_IFMT_of_lt (m : Nat) (hm : m < 2 ^ 12) : m &&& S_IFMT = 0 := by
  apply Nat.eq_of_testBit_eq
  intro i
  rw [Nat.testBit_and, Nat.zero_testBit]
  by_cases hi : i < 12
  · have : S_IFMT.testBit i = false := by
      interval_cases i <;> rfl
    rw [this, Bool.and_false]
  · have : m.testBit i = false := by
      apply Nat.testBit_lt_two_pow
      calc m < 2 ^ 12 := hm
        _ ≤ 2 ^ i := Nat.pow_le_pow_right (by norm_num) (by omega)
    rw [this, Bool.false_and]

/-- C3, as stated, fails: the character device `Attr{Typ: TYPE_CHARDEV, Mode: 0o040000}` has
a 16-bit `Mode`, and the file-type bits of its `SMode` are `S_IFBLK`, those of a block device,
not the `S_IFCHR` that `typeToStatType` gives its type. -/
theorem SMode_chardev_reports_blockdev :
    (⟨0, TYPE_CHARDEV, 0o040000, 0, 0, 0, 0, 0, 0, 0, 0, 1, 0, 0, true⟩ : Attr).Typ ∈ inodeTypes ∧
    (⟨0, TYPE_CHARDEV, 0o040000, 0, 0, 0, 0, 0, 0, 0, 0, 1, 0, 0, true⟩ : Attr).Mode < 2 ^ 16 ∧
    typeToStatType TYPE_CHARDEV = some S_IFCHR ∧
    (Attr.SMode ⟨0, TYPE_CHARDEV, 0o040000, 0, 0, 0, 0, 0, 0, 0, 0, 1, 0, 0, true⟩).map
      (fun v => v &&& S_IFMT) = some S_IFBLK ∧
    S_IFBLK ≠ S_IFCHR := by
  decide

/-- C3, amended: `typeToStatType` maps each of the seven inode types to its POSIX file-type
bits and is injective on the seven types; for an `Attr` of one of these types, with `st` the
stat type of `Typ`, `SMode` returns a value `v` whose file-type bits `v & S_IFMT` are `st`
exactly when the file-type bits of `Mode` lie within `st` (`(Mode & S_IFMT) | st = st`), in
particular whenever `Mode & S_IFMT = 0`. -/
theorem typeToStatType_table_and_SMode_type_bits :
    typeToStatType TYPE_FILE = some S_IFREG ∧
    typeToStatType TYPE_DIRECTORY = some S_IFDIR ∧
    typeToStatType TYPE_SYMLINK = some S_IFLNK ∧
    typeToStatType TYPE_FIFO = some S_IFIFO ∧
    typeToStatType TYPE_BLOCKDEV = some S_IFBLK ∧
    typeToStatType TYPE_CHARDEV = some S_IFCHR ∧
    typeToStatType TYPE_SOCKET = some S_IFSOCK ∧
    (∀ s ∈ inodeTypes, ∀ t ∈ inodeTypes, typeToStatType s = typeToStatType t → s = t) ∧
    (∀ a : Attr, a.Typ ∈ inodeTypes →
      ∃ st v, typeToStatType a.Typ = some st ∧ a.SMode = some v ∧
        (v &&& S_IFMT = st ↔ (a.Mode &&& S_IFMT) ||| st = st) ∧
        (a.Mode &&& S_IFMT = 0 → v &&& S_IFMT = st)) := by
  refine ⟨rfl, rfl, rfl, rfl, rfl, rfl, rfl, by decide, ?_⟩
  intro a ha
  have hs : (typeToStatType a.Typ).isSome = true := by
    revert ha
    generalize a.Typ = t
    revert t
    decide
  obtain ⟨st, hst⟩ := Option.isSome_iff_exists.mp hs
  have hr := typeToStatType_range a.Typ st hst
  have hst1 : st &&& S_IFMT = st := by
    simp only [List.mem_cons, List.mem_singleton, List.not_mem_nil, or_false] at hr
    rcases hr with h | h | h | h | h | h | h <;> subst h <;> decide
  have hv : (st ||| a.Mode) &&& S_IFMT = (a.Mode &&& S_IFMT) ||| st := by
    rw [Nat.and_distrib_right, hst1, Nat.or_comm]
  refine ⟨st, st ||| a.Mode, hst, by simp [Attr.SMode, hst], ?_, ?_⟩
  · rw [hv]
  · intro h0
    rw [hv, h0, Nat.zero_or]

/-- C9: for every `Attr` whose `Typ` has its low seven bits in `1..7` and whose `Mode` is at
most `0o7777`, `SMode` returns a value `v` with `v & S_IFMT = typeToStatType(Typ)` and
`v & 0o7777 = Mode`. -/
theorem SMode_lossless (a : Attr) (ht : 1 ≤ a.Typ &&& 0x7F ∧ a.Typ &&& 0x7F ≤ 7)
    (hm : a.Mode ≤ 0o7777) :
    ∃ v, a.SMode = some v ∧ S_IFMT = 0o170000 ∧ some (v &&& S_IFMT) = typeToStatType a.Typ ∧
      v &&& 0o7777 = a.Mode := by
  have hs := (typeToStatType_isSome_iff a.Typ).mpr ht
  obtain ⟨st, hst⟩ := Option.isSome_iff_exists.mp hs
  have hr := typeToStatType_range a.Typ st hst
  have hmode : a.Mode &&& S_IFMT = 0 := and_S_IFMT_of_lt a.Mode (by omega)
  have hmode2 : a.Mode &&& 0o7777 = a.Mode := by
    have h := Nat.and_pow_two_sub_one_eq_mod a.Mode 12
    norm_num at h
    rw [h]
    omega
  have hst1 : st &&& S_IFMT = st := by
    simp only [List.mem_cons, List.mem_singleton, List.not_mem_nil, or_false] at hr
    rcases hr with h | h | h | h | h | h | h <;> subst h <;> decide
  have hst2 : st &&& 0o7777 = 0 := by
    simp only [List.mem_cons, List.mem_singleton, List.not_mem_nil, or_false] at hr
    rcases hr with h | h | h | h | h | h | h <;> subst h <;> decide
  refine ⟨st ||| a.Mode, by simp [Attr.SMode, hst], rfl, ?_, ?_⟩
  · rw [hst, Nat.and_distrib_right, hst1, hmode, Nat.or_zero]
  · rw [Nat.and_distrib_right, hst2, hmode2, Nat.zero_or]

/-- Witness of C9: a set-uid regular file of mode `0o4755`, with the top bit of `Typ` set. -/
theorem SMode_lossless_witness :
    ∃ v, Attr.SMode ⟨0, 0x81, 0o4755, 0, 0, 0, 0, 0, 0, 0, 0, 1, 0, 0, true⟩ = some v ∧
      S_IFMT = 0o170000 ∧ some (v &&& S_IFMT) = typeToStatType 0x81 ∧ v &&& 0o7777 = 0o4755 :=
  SMode_lossless ⟨0, 0x81, 0o4755, 0, 0, 0, 0, 0, 0, 0, 0, 1, 0, 0, true⟩
    ⟨by decide, by decide⟩ (by decide)

/-- C10: for every 8-bit value `t`, `typeToStatType t` (and `SMode` of an `Attr` of type `t`)
panics exactly when `t & 0x7F` is not one of `1..7`; in particular it panics for `t = 0` and
whenever `8 ≤ t & 0x7F`; and when it does not panic its result is that of
`typeToStatType (t & 0x7F)`. -/
theorem typeToStatType_panics_iff (t : Nat) (ht : t < 256) :
    (typeToStatType t = none ↔ ¬ (1 ≤ t &&& 0x7F ∧ t &&& 0x7F ≤ 7)) ∧
    (∀ a : Attr, a.Typ = t → (a.SMode = none ↔ ¬ (1 ≤ t &&& 0x7F ∧ t &&& 0x7F ≤ 7))) ∧
    typeToStatType 0 = none ∧
    (8 ≤ t &&& 0x7F → typeToStatType t = none) ∧
    (t &&& 0x7F) < 256 ∧
    typeToStatType t = typeToStatType (t &&& 0x7F) := by
  have key : typeToStatType t = none ↔ ¬ (1 ≤ t &&& 0x7F ∧ t &&& 0x7F ≤ 7) := by
    rw [← typeToStatType_isSome_iff]
    cases typeToStatType t <;> simp
  refine ⟨key, ?_, rfl, ?_, ?_, (typeToStatType_mask t).symm⟩
  · intro a ha
    rw [← key, ← ha]
    simp [Attr.SMode]
  · intro h8
    rw [key]
    omega
  · have : t &&& 0x7F ≤ t := Nat.and_le_left
    omega

/-- Witness of C10 at `t = 0x88` (low seven bits `8`): the call panics. -/
theorem typeToStatType_panics_iff_witness :
    (0x88 : Nat) < 256 ∧ typeToStatType 0x88 = none :=
  ⟨by decide, (typeToStatType_panics_iff 0x88 (by decide)).2.2.2.1 (by decide)⟩

/-! ## Flag sets -/

theorem or_eq_zero (a b : Nat) : a ||| b = 0 ↔ a = 0 ∧ b = 0 := by
  constructor
  · intro h
    have hb : ∀ i, a.testBit i = false ∧ b.testBit i = false := by
      intro i
      have h2 := congrArg (fun n => Nat.testBit n i) h
      simpa [Nat.testBit_or] using h2
    constructor
    · apply Nat.eq_of_testBit_eq
      intro i
      simp [(hb i).1]
    · apply Nat.eq_of_testBit_eq
      intro i
      simp [(hb i).2]
  · rintro ⟨rfl, rfl⟩
    rfl

/-- In a list of flags where two flags share a bit only when they are equal, the bitwise OR of
a sub-collection `S` (started from `acc`) tests positive for a flag `f` exactly when `acc` does
or `f` is in `S`. -/
theorem foldl_or_test (L : List Nat)
    (hL : ∀ x ∈ L, ∀ f ∈ L, (x &&& f ≠ 0 ↔ x = f)) (f : Nat) (hf : f ∈ L) :
    ∀ (S : List Nat) (acc : Nat), (∀ x ∈ S, x ∈ L) →
      ((S.foldl (fun a b => a ||| b) acc) &&& f ≠ 0 ↔ (acc &&& f ≠ 0 ∨ f ∈ S)) := by
  intro S
  induction S with
  | nil => intro acc _; simp
  | cons x S ih =>
    intro acc hS
    have hx : x ∈ L := hS x (List.mem_cons_self x S)
    have hS2 : ∀ y ∈ S, y ∈ L := fun y hy => hS y (List.mem_cons_of_mem x hy)
    rw [List.foldl_cons, ih (acc ||| x) hS2, Nat.and_distrib_right, List.mem_cons]
    have h1 : (acc &&& f ||| x &&& f) ≠ 0 ↔ (acc &&& f ≠ 0 ∨ x &&& f ≠ 0) := by
      rw [Ne, or_eq_zero]
      tauto
    rw [h1, hL x hx f hf]
    constructor
    · rintro ((h | h) | h)
      · exact Or.inl h
      · exact Or.inr (Or.inl h.symm)
      · exact Or.inr (Or.inr h)
    · rintro (h | h | h)
      · exact Or.inl (Or.inl h)
      · exact Or.inl (Or.inr h.symm)
      · exact Or.inr h

/-- The bitwise OR of values below `2^n` stays below `2^n`. -/
theorem foldl_or_lt (n : Nat) :
    ∀ (S : List Nat) (acc : Nat), acc < 2 ^ n → (∀ x ∈ S, x < 2 ^ n) →
      S.foldl (fun a b => a ||| b) acc < 2 ^ n := by
  intro S
  induction S with
  | nil => intro acc h _; simpa using h
  | cons x S ih =>
    intro acc hacc hS
    rw [List.foldl_cons]
    exact ih (acc ||| x) (Nat.or_lt_two_pow hacc (hS x (List.mem_cons_self x S)))
      (fun y hy => hS y (List.mem_cons_of_mem x hy))

/-- C4: the nine `SET_ATTR_*` flags are the pairwise-distinct single-bit values
`1, 2, 4, ..., 256`, all below `2^16`; for every collection `S` of these flags the bitwise OR
`m` of `S` fits 16 bits and satisfies `m & f != 0` exactly when `f` is in `S`. -/
theorem setattr_flags_bitmask :
    setAttrFlags = [1, 2, 4, 8, 16, 32, 64, 128, 256] ∧
    setAttrFlags.Nodup ∧
    (∀ f ∈ setAttrFlags, ∃ k, f = 2 ^ k) ∧
    (∀ f ∈ setAttrFlags, f < 2 ^ 16) ∧
    (∀ S : List Nat, (∀ x ∈ S, x ∈ setAttrFlags) →
      S.foldl (fun a b => a ||| b) 0 < 2 ^ 16 ∧
      ∀ f ∈ setAttrFlags, ((S.foldl (fun a b => a ||| b) 0) &&& f ≠ 0 ↔ f ∈ S)) := by
  have hlt : ∀ f ∈ setAttrFlags, f < 2 ^ 16 := by decide
  refine ⟨by decide, by decide, ?_, hlt, ?_⟩
  · intro f hf
    have h : f ∈ [2 ^ 0, 2 ^ 1, 2 ^ 2, 2 ^ 3, 2 ^ 4, 2 ^ 5, 2 ^ 6, 2 ^ 7, 2 ^ 8] := hf
    simp only [List.mem_cons, List.mem_singleton, List.not_mem_nil, or_false] at h
    rcases h with h | h | h | h | h | h | h | h | h <;> exact ⟨_, h⟩
  · intro S hS
    refine ⟨foldl_or_lt 16 S 0 (by norm_num) (fun x hx => hlt x (hS x hx)), ?_⟩
    intro f hf
    have h := foldl_or_test setAttrFlags (by decide) f hf S 0 hS
    simpa using h

/-- C6: the six `FALLOC_*` flags are pairwise-distinct single-bit values below 256 that share
no bit with one another; hence in every mode byte `m`, setting a flag `f` makes the test of `f`
positive and leaves the test of every other flag `g` as it was, and the bitwise OR of a
collection `S` of flags tests positive for `f` exactly when `f` is in `S`. -/
theorem falloc_flags_distinct :
    fallocFlags = [1, 2, 4, 8, 16, 32] ∧
    fallocFlags.Nodup ∧
    (∀ f ∈ fallocFlags, ∃ k, f = 2 ^ k) ∧
    (∀ f ∈ fallocFlags, f < 256) ∧
    (∀ f ∈ fallocFlags, ∀ g ∈ fallocFlags, f ≠ g → f &&& g = 0) ∧
    (∀ m : Nat, m < 256 → ∀ f ∈ fallocFlags, ∀ g ∈ fallocFlags, f ≠ g →
      (m ||| f) < 256 ∧ (m ||| f) &&& f = f ∧ (m ||| f) &&& g = m &&& g) ∧
    (∀ S : List Nat, (∀ x ∈ S, x ∈ fallocFlags) →
      S.foldl (fun a b => a ||| b) 0 < 256 ∧
      ∀ f ∈ fallocFlags, ((S.foldl (fun a b => a ||| b) 0) &&& f ≠ 0 ↔ f ∈ S)) := by
  have hlt : ∀ f ∈ fallocFlags, f < 2 ^ 8 := by decide
  have hdisj : ∀ f ∈ fallocFlags, ∀ g ∈ fallocFlags, f ≠ g → f &&& g = 0 := by decide
  refine ⟨by decide, by decide, ?_, by decide, hdisj, ?_, ?_⟩
  · intro f hf
    have h : f ∈ [2 ^ 0, 2 ^ 1, 2 ^ 2, 2 ^ 3, 2 ^ 4, 2 ^ 5] := hf
    simp only [List.mem_cons, List.mem_singleton, List.not_mem_nil, or_false] at h
    rcases h with h | h | h | h | h | h <;> exact ⟨_, h⟩
  · intro m hm f hf g hg hfg
    refine ⟨@Nat.or_lt_two_pow m f 8 hm (hlt f hf), ?_, ?_⟩
    · rw [Nat.and_distrib_right, Nat.and_self]
      apply Nat.eq_of_testBit_eq
      intro i
      simp only [Nat.testBit_or, Nat.testBit_and]
      cases f.testBit i <;> simp
    · rw [Nat.and_distrib_right, hdisj f hf g hg hfg, Nat.or_zero]
  · intro S hS
    refine ⟨foldl_or_lt 8 S 0 (by norm_num) (fun x hx => hlt x (hS x hx)), ?_⟩
    intro f hf
    have h := foldl_or_test fallocFlags (by decide) f hf S 0 hS
    simpa using h

/-! ## `CHUNK_DEL` -/

/-- C5, as stated, fails: the slice `{Chunkid: 1, Clen: 1000, Off: 0, Len: 1000}` has fields of
the declared widths and lies within one chunk, and its `Len` and its `Clen` are `CHUNK_DEL`. -/
theorem chunk_del_is_a_slice_length :
    (⟨1, 1000, 0, 1000⟩ : Slice).Chunkid < 2 ^ 64 ∧ (⟨1, 1000, 0, 1000⟩ : Slice).Clen < 2 ^ 32 ∧
    (⟨1, 1000, 0, 1000⟩ : Slice).Off < 2 ^ 32 ∧ (⟨1, 1000, 0, 1000⟩ : Slice).Len < 2 ^ 32 ∧
    1 ≤ (⟨1, 1000, 0, 1000⟩ : Slice).Len ∧
    (⟨1, 1000, 0, 1000⟩ : Slice).Off + (⟨1, 1000, 0, 1000⟩ : Slice).Len ≤ CHUNKSIZE ∧
    (⟨1, 1000, 0, 1000⟩ : Slice).Len = CHUNK_DEL ∧
    (⟨1, 1000, 0, 1000⟩ : Slice).Clen = CHUNK_DEL := by
  decide

/-- C5, amended: `CHUNK_DEL` is 1000, itself a length a slice within one chunk can have; a
slice within one chunk (`Len >= 1`, `Off + Len <= CHUNKSIZE`) at offset `off` can have
`Len = CHUNK_DEL` exactly when `off <= CHUNKSIZE - CHUNK_DEL`, so `Len` is different from
`CHUNK_DEL` for every slice within one chunk whose `Off` is above `CHUNKSIZE - CHUNK_DEL`;
lying within one chunk puts no condition on `Clen`, which may be `CHUNK_DEL`. -/
theorem chunk_del_slice_length_iff :
    CHUNK_DEL = 1000 ∧
    (∀ off : Nat, (∃ s : Slice, s.Off = off ∧ 1 ≤ s.Len ∧ s.Off + s.Len ≤ CHUNKSIZE ∧
        s.Len = CHUNK_DEL) ↔ off ≤ CHUNKSIZE - CHUNK_DEL) ∧
    (∀ s : Slice, 1 ≤ s.Len → s.Off + s.Len ≤ CHUNKSIZE → CHUNKSIZE - CHUNK_DEL < s.Off →
      s.Len ≠ CHUNK_DEL) ∧
    (∀ s : Slice, 1 ≤ s.Len → s.Off + s.Len ≤ CHUNKSIZE →
      1 ≤ ({ s with Clen := CHUNK_DEL } : Slice).Len ∧
      ({ s with Clen := CHUNK_DEL } : Slice).Off + ({ s with Clen := CHUNK_DEL } : Slice).Len ≤
        CHUNKSIZE ∧
      ({ s with Clen := CHUNK_DEL } : Slice).Clen = CHUNK_DEL) := by
  have hcs : CHUNKSIZE = 67108864 := by decide
  have hcd : CHUNK_DEL = 1000 := rfl
  refine ⟨rfl, ?_, ?_, fun s h1 h2 => ⟨h1, h2, rfl⟩⟩
  · intro off
    rw [hcs, hcd]
    constructor
    · rintro ⟨s, h1, h2, h3, h4⟩
      omega
    · intro h
      exact ⟨⟨0, 0, off, 1000⟩, rfl, by simp, by simp; omega, rfl⟩
  · intro s h1 h2 h3
    rw [hcs, hcd] at *
    omega

/-! ## Byte-range lock split -/

/-- The records of an inode without locks after owner `A` locks `[0,100)` for write and then
unlocks `[40,60)`. -/
theorem setlk_split_records (tbl : LockTable) (inode A pidA pidU : Nat) (b1 b2 : Bool)
    (hempty : tbl inode = []) :
    (Setlk tbl inode A b1 POSIX_LOCK_WRLCK 0 100 pidA).1 = .done ∧
    (Setlk (Setlk tbl inode A b1 POSIX_LOCK_WRLCK 0 100 pidA).2 inode A b2
        POSIX_LOCK_UNLCK 40 60 pidU).1 = .done ∧
    (Setlk (Setlk tbl inode A b1 POSIX_LOCK_WRLCK 0 100 pidA).2 inode A b2
        POSIX_LOCK_UNLCK 40 60 pidU).2 inode =
      [⟨A, pidA, POSIX_LOCK_WRLCK, 0, 40⟩, ⟨A, pidA, POSIX_LOCK_WRLCK, 60, 100⟩] := by
  simp [Setlk, LockTable.set, hempty, POSIX_LOCK_WRLCK, POSIX_LOCK_UNLCK, POSIX_LOCK_RDLCK,
    PLock.cut, PLock.overlaps]

/-- C8: on an inode without locks, after owner `A` locks the bytes `[0,100)` for write and
then unlocks `[40,60)` (both calls succeed), a `Getlk` probe of another owner `B` for a read
or a write lock on a non-empty range `[s,e)` reports, when `[s,e)` meets `[0,40)` or
`[60,100)`, a write lock with the pid of `A` whose range is `[0,40)` or `[60,100)` and meets
`[s,e)`, and reports `POSIX_LOCK_UNLCK` when `[s,e)` is contained in `[40,60)`. -/
theorem byte_range_lock_split (tbl : LockTable) (inode A B pidA pidU : Nat) (b1 b2 : Bool)
    (t s e : Nat) (hempty : tbl inode = []) (hAB : A ≠ B)
    (ht : t = POSIX_LOCK_RDLCK ∨ t = POSIX_LOCK_WRLCK) (hse : s < e) :
    (Setlk tbl inode A b1 POSIX_LOCK_WRLCK 0 100 pidA).1 = .done ∧
    (Setlk (Setlk tbl inode A b1 POSIX_LOCK_WRLCK 0 100 pidA).2 inode A b2
        POSIX_LOCK_UNLCK 40 60 pidU).1 = .done ∧
    ((s < 40 ∨ (s < 100 ∧ 60 < e)) →
      (Getlk (Setlk (Setlk tbl inode A b1 POSIX_LOCK_WRLCK 0 100 pidA).2 inode A b2
          POSIX_LOCK_UNLCK 40 60 pidU).2 inode B t s e).ltype = POSIX_LOCK_WRLCK ∧
      (Getlk (Setlk (Setlk tbl inode A b1 POSIX_LOCK_WRLCK 0 100 pidA).2 inode A b2
          POSIX_LOCK_UNLCK 40 60 pidU).2 inode B t s e).pid = pidA ∧
      (((Getlk (Setlk (Setlk tbl inode A b1 POSIX_LOCK_WRLCK 0 100 pidA).2 inode A b2
            POSIX_LOCK_UNLCK 40 60 pidU).2 inode B t s e).start = 0 ∧
        (Getlk (Setlk (Setlk tbl inode A b1 POSIX_LOCK_WRLCK 0 100 pidA).2 inode A b2
            POSIX_LOCK_UNLCK 40 60 pidU).2 inode B t s e).end_ = 40 ∧ s < 40) ∨
       ((Getlk (Setlk (Setlk tbl inode A b1 POSIX_LOCK_WRLCK 0 100 pidA).2 inode A b2
            POSIX_LOCK_UNLCK 40 60 pidU).2 inode B t s e).start = 60 ∧
        (Getlk (Setlk (Setlk tbl inode A b1 POSIX_LOCK_WRLCK 0 100 pidA).2 inode A b2
            POSIX_LOCK_UNLCK 40 60 pidU).2 inode B t s e).end_ = 100 ∧ s < 100 ∧ 60 < e))) ∧
    ((40 ≤ s ∧ e ≤ 60) →
      Getlk (Setlk (Setlk tbl inode A b1 POSIX_LOCK_WRLCK 0 100 pidA).2 inode A b2
          POSIX_LOCK_UNLCK 40 60 pidU).2 inode B t s e = ⟨POSIX_LOCK_UNLCK, s, e, 0⟩) := by
  obtain ⟨h1, h2, h3⟩ := setlk_split_records tbl inode A pidA pidU b1 b2 hempty
  refine ⟨h1, h2, ?_, ?_⟩
  · intro hmeet
    have hc : lockConflict t POSIX_LOCK_WRLCK = true := by
      rcases ht with rfl | rfl <;> rfl
    unfold Getlk
    rw [h3]
    have he0 : 0 < e := by omega
    by_cases hs : s < 40
    · simp [List.find?, PLock.overlaps, hAB, hc, hs, hse, he0]
    · have h60 : s < 100 ∧ 60 < e := by omega
      simp [List.find?, PLock.overlaps, hAB, hc, hs, hse, he0, h60.1, h60.2]
  · rintro ⟨h40, h60⟩
    unfold Getlk
    rw [h3]
    have hs : ¬ s < 40 := by omega
    have he : ¬ 60 < e := by omega
    simp [List.find?, PLock.overlaps, hs, he]

/-- Witness of C8: owners 7 and 8 on inode 2 of the lock table without locks; owner 8 probes
`[30,50)` for a read lock and is shown the write lock `[0,40)` of pid 700. -/
theorem byte_range_lock_split_witness :
    (Getlk (Setlk (Setlk (fun _ => []) 2 7 false POSIX_LOCK_WRLCK 0 100 700).2 2 7 false
        POSIX_LOCK_UNLCK 40 60 700).2 2 8 POSIX_LOCK_RDLCK 30 50).ltype = POSIX_LOCK_WRLCK ∧
    (Getlk (Setlk (Setlk (fun _ => []) 2 7 false POSIX_LOCK_WRLCK 0 100 700).2 2 7 false
        POSIX_LOCK_UNLCK 40 60 700).2 2 8 POSIX_LOCK_RDLCK 30 50) =
      ⟨POSIX_LOCK_WRLCK, 0, 40, 700⟩ :=
  ⟨(byte_range_lock_split (fun _ => []) 2 7 8 700 700 false false POSIX_LOCK_RDLCK 30 50 rfl
      (by decide) (Or.inl rfl) (by decide)).2.2.1 (Or.inl (by decide)) |>.1,
   by decide⟩

/-! ## Link counts: records and counters -/

theorem updAttr_eq_some (attrs : Nat → Option Attr) (k : Nat) (f : Attr → Attr) (i : Nat)
    (a : Attr) :
    updAttr attrs k f i = some a ↔ ∃ a0, attrs i = some a0 ∧ a = if i = k then f a0 else a0 := by
  unfold updAttr
  by_cases hik : i = k
  · simp only [hik, if_true]
    cases attrs k with
    | none => simp
    | some a0 =>
      simp only [Option.map_some', Option.some.injEq]
      constructor
      · intro h
        exact ⟨a0, rfl, h.symm⟩
      · rintro ⟨a1, h1, h2⟩
        rw [h2, h1]
  · simp only [hik, if_false]
    constructor
    · intro h
      exact ⟨a, h, rfl⟩
    · rintro ⟨a1, h1, h2⟩
      rw [h2, h1]

theorem updAttr_none_iff (attrs : Nat → Option Attr) (k : Nat) (f : Attr → Attr) (i : Nat) :
    updAttr attrs k f i = none ↔ attrs i = none := by
  unfold updAttr
  split
  · cases attrs i <;> simp
  · rfl

theorem isDir_of_some {attrs : Nat → Option Attr} {i : Nat} {a : Attr}
    (h : attrs i = some a) : isDir attrs i = decide (a.Typ = TYPE_DIRECTORY) := by
  simp [isDir, h]

theorem isSome_of_isDir {attrs : Nat → Option Attr} {i : Nat}
    (h : isDir attrs i = true) : ∃ a, attrs i = some a ∧ a.Typ = TYPE_DIRECTORY := by
  unfold isDir at h
  split at h
  · rename_i a ha
    exact ⟨a, ha, by simpa using h⟩
  · cases h

/-- A change of a record that keeps the type keeps what is a directory. -/
theorem isDir_updAttr (attrs : Nat → Option Attr) (k : Nat) (f : Attr → Attr)
    (hf : ∀ a, (f a).Typ = a.Typ) : isDir (updAttr attrs k f) = isDir attrs := by
  funext i
  unfold isDir updAttr
  by_cases hik : i = k
  · simp only [hik, if_true]
    cases attrs k with
    | none => rfl
    | some a0 => simp [hf]
  · simp only [hik, if_false]

theorem countP_erase_of_mem (q : Dentry → Bool) (d : Dentry) :
    ∀ l : List Dentry, d ∈ l →
      List.countP q (l.erase d) + (if q d = true then 1 else 0) = List.countP q l := by
  intro l
  induction l with
  | nil => intro h; cases h
  | cons x l ih =>
    intro h
    by_cases hx : x = d
    · subst hx
      rw [List.erase_cons_head, List.countP_cons]
    · have hd : d ∈ l := by
        rcases List.mem_cons.mp h with h1 | h1
        · exact absurd h1.symm hx
        · exact h1
      have hb : ¬ (x == d) = true := by simpa using hx
      rw [List.erase_cons_tail hb, List.countP_cons, List.countP_cons, ← ih hd]
      omega

theorem storedRefs_cons (d : Dentry) (l : List Dentry) (i : Nat) :
    storedRefs (d :: l) i = storedRefs l i + (if d.inode = i then 1 else 0) := by
  simp [storedRefs, List.countP_cons]

theorem storedRefs_erase (d : Dentry) (l : List Dentry) (hd : d ∈ l) (i : Nat) :
    storedRefs (l.erase d) i + (if d.inode = i then 1 else 0) = storedRefs l i := by
  have h := countP_erase_of_mem (fun e => decide (e.inode = i)) d l hd
  simpa [storedRefs] using h

theorem storedRefs_eq_zero (l : List Dentry) (i : Nat) (h : ∀ d ∈ l, d.inode ≠ i) :
    storedRefs l i = 0 := by
  unfold storedRefs
  rw [List.countP_eq_zero]
  intro d hd
  simpa using h d hd

theorem storedRefs_pos_of_mem {d : Dentry} {l : List Dentry} (hd : d ∈ l) :
    0 < storedRefs l d.inode := by
  unfold storedRefs
  rw [List.countP_pos_iff]
  exact ⟨d, hd, by simp⟩

theorem childDirRefs_cons (attrs : Nat → Option Attr) (d : Dentry) (l : List Dentry) (i : Nat) :
    childDirRefs attrs (d :: l) i =
      childDirRefs attrs l i + (if d.parent = i ∧ isDir attrs d.inode = true then 1 else 0) := by
  simp [childDirRefs, List.countP_cons]

theorem childDirRefs_erase (attrs : Nat → Option Attr) (d : Dentry) (l : List Dentry)
    (hd : d ∈ l) (i : Nat) :
    childDirRefs attrs (l.erase d) i +
        (if d.parent = i ∧ isDir attrs d.inode = true then 1 else 0) =
      childDirRefs attrs l i := by
  have h := countP_erase_of_mem (fun e => decide (e.parent = i) && isDir attrs e.inode) d l hd
  simpa [childDirRefs] using h

theorem childDirRefs_congr (attrs attrs2 : Nat → Option Attr) (l : List Dentry) (i : Nat)
    (h : ∀ d ∈ l, isDir attrs2 d.inode = isDir attrs d.inode) :
    childDirRefs attrs2 l i = childDirRefs attrs l i := by
  unfold childDirRefs
  apply List.countP_congr
  intro d hd
  rw [h d hd]

theorem childDirRefs_eq_zero (attrs : Nat → Option Attr) (l : List Dentry) (i : Nat)
    (h : ∀ d ∈ l, d.parent ≠ i) : childDirRefs attrs l i = 0 := by
  unfold childDirRefs
  rw [List.countP_eq_zero]
  intro d hd
  simp [h d hd]

theorem lookupEntry_mem {ns : Namespace} {parent : Nat} {name : String} {d : Dentry}
    (h : ns.lookupEntry parent name = some d) : d ∈ ns.entries :=
  List.mem_of_find?_eq_some h

theorem lookupEntry_parent {ns : Namespace} {parent : Nat} {name : String} {d : Dentry}
    (h : ns.lookupEntry parent name = some d) : d.parent = parent := by
  have := List.find?_some h
  simp only [decide_eq_true_eq] at this
  exact this.1

theorem hasEntries_false {ns : Namespace} {i : Nat} (h : ¬ ns.hasEntries i = true) :
    ∀ d ∈ ns.entries, d.parent ≠ i := by
  intro d hd hp
  apply h
  unfold Namespace.hasEntries
  rw [List.any_eq_true]
  exact ⟨d, hd, by simpa using hp⟩

theorem lt_nextInode_of_some {ns : Namespace} (h : ns.Consistent) {i : Nat} {a : Attr}
    (hi : ns.attrs i = some a) : i < ns.nextInode := by
  by_contra hlt
  have := h.fresh i (by omega)
  rw [this] at hi
  cases hi

theorem lt_nextInode_of_isDir {ns : Namespace} (h : ns.Consistent) {i : Nat}
    (hi : isDir ns.attrs i = true) : i < ns.nextInode := by
  obtain ⟨a, ha, _⟩ := isSome_of_isDir hi
  exact lt_nextInode_of_some h ha

/-! ## Link counts: the invariant -/

theorem Consistent_init : Namespace.init.Consistent := by
  have hi : ∀ i a, Namespace.init.attrs i = some a →
      i = rootInode ∧ a = ⟨0, TYPE_DIRECTORY, 0o777, 0, 0, 0, 0, 0, 0, 0, 0, 2, 0, 0, true⟩ := by
    intro i a ha
    simp only [Namespace.init] at ha
    split at ha
    · rename_i h
      cases ha
      exact ⟨h, rfl⟩
    · cases ha
  refine ⟨?_, ?_, ?_, ?_, ?_, ?_⟩
  · intro i a ha
    obtain ⟨rfl, rfl⟩ := hi i a ha
    decide
  · intro i a ha
    obtain ⟨rfl, rfl⟩ := hi i a ha
    decide
  · intro i hi2
    have : i ≠ rootInode := by
      simp only [Namespace.init] at hi2
      omega
    simp [Namespace.init, this]
  · intro d hd
    cases hd
  · intro i _
    simp [storedRefs, Namespace.init]
  · decide

/-- The state after a creation: a fresh inode with its entry in `parent`. -/
theorem Consistent_insert (ns : Namespace) (h : ns.Consistent) (parent : Nat) (name : String)
    (pa attr : Attr) (f : Attr → Attr) (n : Nat) (sl : Nat → Option String)
    (hpa : ns.attrs parent = some pa) (hpdir : pa.Typ = TYPE_DIRECTORY)
    (hroom : pa.Nlink < maxNlink)
    (hft : ∀ a, (f a).Typ = a.Typ) (hfn : ∀ a, (f a).Nlink = a.Nlink + n)
    (hn : n = if attr.Typ = TYPE_DIRECTORY then 1 else 0)
    (hattr : attr.Nlink = if attr.Typ = TYPE_DIRECTORY then 2 else 1) :
    Namespace.Consistent
      ⟨fun j => if j = ns.nextInode then some attr else updAttr ns.attrs parent f j,
       ⟨parent, name, ns.nextInode⟩ :: ns.entries, sl, ns.nextInode + 1⟩ := by
  have hpd : isDir ns.attrs parent = true := by
    rw [isDir_of_some hpa]
    simpa using hpdir
  have hplt : parent < ns.nextInode := lt_nextInode_of_some h hpa
  have hroot : rootInode < ns.nextInode := lt_nextInode_of_isDir h h.root
  have hdir : ∀ j, isDir (fun j => if j = ns.nextInode then some attr
      else updAttr ns.attrs parent f j) j =
      if j = ns.nextInode then decide (attr.Typ = TYPE_DIRECTORY) else isDir ns.attrs j := by
    intro j
    by_cases hj : j = ns.nextInode
    · simp [isDir, hj]
    · have := congrFun (isDir_updAttr ns.attrs parent f hft) j
      simp only [hj, if_false]
      rw [← this]
      simp [isDir, hj]
  have hs0 : storedRefs ns.entries ns.nextInode = 0 :=
    storedRefs_eq_zero _ _ (fun d hd => by have := (h.entry d hd).1; omega)
  have hc0 : ∀ A2, childDirRefs A2 ns.entries ns.nextInode = 0 := fun A2 =>
    childDirRefs_eq_zero _ _ _ (fun d hd => by
      have := lt_nextInode_of_isDir h (h.entry d hd).2.2
      omega)
  have hcc : ∀ i, childDirRefs (fun j => if j = ns.nextInode then some attr
      else updAttr ns.attrs parent f j) ns.entries i = childDirRefs ns.attrs ns.entries i := by
    intro i
    apply childDirRefs_congr
    intro d hd
    rw [hdir, if_neg]
    have := (h.entry d hd).1
    omega
  refine ⟨?_, ?_, ?_, ?_, ?_, ?_⟩
  · intro i a ha
    simp only [Namespace.refCount]
    rw [storedRefs_cons, childDirRefs_cons, hdir, hdir, hcc]
    simp only at ha ⊢
    by_cases hi : i = ns.nextInode
    · subst hi
      simp only [if_true, Option.some.injEq] at ha
      subst ha
      rw [hattr, hs0, hc0]
      have h1 : ¬ (parent = ns.nextInode) := by omega
      have h2 : ¬ (ns.nextInode = rootInode) := by omega
      by_cases ht : attr.Typ = TYPE_DIRECTORY <;> simp [ht, h1, h2]
    · simp only [hi, if_false] at ha ⊢
      obtain ⟨a0, ha0, rfl⟩ := (updAttr_eq_some _ _ _ _ _).mp ha
      have hI := h.nlink i a0 ha0
      simp only [Namespace.refCount] at hI
      have h3 : ¬ (ns.nextInode = i) := fun hh => hi hh.symm
      simp only [h3, if_false, Nat.add_zero, if_true]
      by_cases hip : i = parent
      · subst hip
        simp only [if_true, hfn, hn, true_and, decide_eq_true_eq]
        by_cases ht : attr.Typ = TYPE_DIRECTORY <;> simp only [ht, if_true, if_false] <;> omega
      · have h4 : ¬ (parent = i) := fun hh => hip hh.symm
        simp only [hip, if_false, h4, false_and]
        omega
  · intro i a ha
    simp only at ha
    by_cases hi : i = ns.nextInode
    · subst hi
      simp only [if_true, Option.some.injEq] at ha
      subst ha
      rw [hattr]
      unfold maxNlink
      split <;> norm_num
    · simp only [hi, if_false] at ha
      obtain ⟨a0, ha0, rfl⟩ := (updAttr_eq_some _ _ _ _ _).mp ha
      have hb := h.bound i a0 ha0
      by_cases hip : i = parent
      · subst hip
        rw [hpa] at ha0
        cases ha0
        simp only [if_true, hfn, hn]
        split <;> omega
      · simpa [hip] using hb
  · intro i hi
    simp only at hi ⊢
    rw [if_neg (by omega), updAttr_none_iff]
    exact h.fresh i (by omega)
  · intro d hd
    simp only at hd ⊢
    rw [hdir]
    rcases List.mem_cons.mp hd with hd | hd
    · subst hd
      simp only
      refine ⟨by omega, by omega, ?_⟩
      rw [if_neg (by omega)]
      exact hpd
    · have h1 := h.entry d hd
      have h2 := lt_nextInode_of_isDir h h1.2.2
      refine ⟨by omega, h1.2.1, ?_⟩
      rw [if_neg (by omega)]
      exact h1.2.2
  · intro i hi
    simp only at hi ⊢
    rw [hdir] at hi
    rw [storedRefs_cons]
    by_cases hin : i = ns.nextInode
    · subst hin
      rw [hs0]
      simp
    · rw [if_neg hin] at hi
      have := h.single i hi
      have h3 : ¬ (ns.nextInode = i) := fun hh => hin hh.symm
      simp only [h3, if_false]
      omega
  · simp only
    rw [hdir, if_neg (by omega)]
    exact h.root

theorem Consistent_create (ns : Namespace) (h : ns.Consistent) (ctx : Context) (parent : Nat)
    (name : String) (_type mode cumask rdev copysgid : Nat) (path : Option String) :
    (ns.create ctx parent name _type mode cumask rdev copysgid path).2.2.Consistent := by
  unfold Namespace.create
  split
  · exact h
  · rename_i pa hpa
    split
    · exact h
    · rename_i h1
      split
      · exact h
      · split
        · exact h
        · split
          · exact h
          · split
            · exact h
            · rename_i hroom
              exact Consistent_insert ns h parent name pa _ _
                (if _type = TYPE_DIRECTORY then 1 else 0) _ hpa (by simpa using h1)
                (by omega) (fun _ => rfl) (fun _ => rfl) rfl rfl

theorem childDirRefs_of_isDir_eq (attrs attrs2 : Nat → Option Attr) (l : List Dentry) (i : Nat)
    (h : isDir attrs2 = isDir attrs) : childDirRefs attrs2 l i = childDirRefs attrs l i := by
  unfold childDirRefs
  rw [h]

/-- The state after a link: one more entry for a non-directory. -/
theorem Consistent_link (ns : Namespace) (h : ns.Consistent) (src parent : Nat) (name : String)
    (sa pa : Attr) (f g : Attr → Attr)
    (hsa : ns.attrs src = some sa) (hsnd : sa.Typ ≠ TYPE_DIRECTORY)
    (hroom : sa.Nlink < maxNlink)
    (hpa : ns.attrs parent = some pa) (hpdir : pa.Typ = TYPE_DIRECTORY)
    (hft : ∀ a, (f a).Typ = a.Typ) (hfn : ∀ a, (f a).Nlink = a.Nlink + 1)
    (hgt : ∀ a, (g a).Typ = a.Typ) (hgn : ∀ a, (g a).Nlink = a.Nlink) :
    Namespace.Consistent
      ⟨updAttr (updAttr ns.attrs src f) parent g, ⟨parent, name, src⟩ :: ns.entries,
       ns.symlinks, ns.nextInode⟩ := by
  have hdf : isDir (updAttr (updAttr ns.attrs src f) parent g) = isDir ns.attrs := by
    rw [isDir_updAttr _ _ _ hgt, isDir_updAttr _ _ _ hft]
  have hsd : isDir ns.attrs src = false := by
    rw [isDir_of_some hsa]
    simpa using hsnd
  have hpd : isDir ns.attrs parent = true := by
    rw [isDir_of_some hpa]
    simpa using hpdir
  have hsr : src ≠ rootInode := by
    intro hh
    rw [hh, h.root] at hsd
    cases hsd
  refine ⟨?_, ?_, ?_, ?_, ?_, ?_⟩
  · intro i a ha
    obtain ⟨a1, ha1, rfl⟩ := (updAttr_eq_some _ _ _ _ _).mp ha
    obtain ⟨a0, ha0, rfl⟩ := (updAttr_eq_some _ _ _ _ _).mp ha1
    have hI := h.nlink i a0 ha0
    simp only [Namespace.refCount] at hI ⊢
    rw [hdf, childDirRefs_of_isDir_eq _ _ _ _ hdf, storedRefs_cons, childDirRefs_cons, hsd]
    simp only [apply_ite Attr.Nlink, hfn, hgn, ite_self, and_false, Bool.false_eq_true,
      if_false, Nat.add_zero]
    by_cases hd : isDir ns.attrs i = true
    · have hne : ¬ (src = i) := by
        intro hh
        rw [hh, hd] at hsd
        cases hsd
      have hne2 : ¬ (i = src) := fun hh => hne hh.symm
      simp only [hne, hne2, if_false, Nat.add_zero]
      exact hI
    · simp only [hd, Bool.false_eq_true, false_and, if_false, Nat.add_zero] at hI ⊢
      by_cases hs : i = src
      · subst hs
        simp only [if_true]
        omega
      · have hne : ¬ (src = i) := fun hh => hs hh.symm
        simp only [hs, hne, if_false, Nat.add_zero]
        exact hI
  · intro i a ha
    obtain ⟨a1, ha1, rfl⟩ := (updAttr_eq_some _ _ _ _ _).mp ha
    obtain ⟨a0, ha0, rfl⟩ := (updAttr_eq_some _ _ _ _ _).mp ha1
    have hb := h.bound i a0 ha0
    simp only [apply_ite Attr.Nlink, hfn, hgn, ite_self]
    by_cases hs : i = src
    · subst hs
      rw [hsa] at ha0
      cases ha0
      simp only [if_true]
      omega
    · simpa [hs] using hb
  · intro i hi
    simp only at hi ⊢
    rw [updAttr_none_iff, updAttr_none_iff]
    exact h.fresh i hi
  · intro d hd
    simp only at hd ⊢
    rw [hdf]
    rcases List.mem_cons.mp hd with hd | hd
    · subst hd
      exact ⟨lt_nextInode_of_some h hsa, hsr, hpd⟩
    · exact h.entry d hd
  · intro i hi
    simp only at hi ⊢
    rw [hdf] at hi
    rw [storedRefs_cons]
    have hne : ¬ (src = i) := by
      intro hh
      rw [hh, hi] at hsd
      cases hsd
    simp only [hne, if_false, Nat.add_zero]
    exact h.single i hi
  · simp only
    rw [hdf]
    exact h.root

/-- The state after an unlink: one entry of a non-directory less. -/
theorem Consistent_unlink (ns : Namespace) (h : ns.Consistent) (d : Dentry) (parent : Nat)
    (a : Attr) (f g : Attr → Attr)
    (hmem : d ∈ ns.entries) (ha : ns.attrs d.inode = some a) (hnd : a.Typ ≠ TYPE_DIRECTORY)
    (hft : ∀ a, (f a).Typ = a.Typ) (hfn : ∀ a, (f a).Nlink = a.Nlink - 1)
    (hgt : ∀ a, (g a).Typ = a.Typ) (hgn : ∀ a, (g a).Nlink = a.Nlink) :
    Namespace.Consistent
      ⟨updAttr (updAttr ns.attrs d.inode f) parent g, ns.entries.erase d,
       ns.symlinks, ns.nextInode⟩ := by
  have hdf : isDir (updAttr (updAttr ns.attrs d.inode f) parent g) = isDir ns.attrs := by
    rw [isDir_updAttr _ _ _ hgt, isDir_updAttr _ _ _ hft]
  have hsd : isDir ns.attrs d.inode = false := by
    rw [isDir_of_some ha]
    simpa using hnd
  refine ⟨?_, ?_, ?_, ?_, ?_, ?_⟩
  · intro i b hb
    obtain ⟨a1, ha1, rfl⟩ := (updAttr_eq_some _ _ _ _ _).mp hb
    obtain ⟨a0, ha0, rfl⟩ := (updAttr_eq_some _ _ _ _ _).mp ha1
    have hI := h.nlink i a0 ha0
    have hs := storedRefs_erase d ns.entries hmem i
    have hc := childDirRefs_erase ns.attrs d ns.entries hmem i
    simp only [hsd, and_false, Bool.false_eq_true, if_false, Nat.add_zero] at hc
    simp only [Namespace.refCount] at hI ⊢
    rw [hdf, childDirRefs_of_isDir_eq _ _ _ _ hdf, hc]
    simp only [apply_ite Attr.Nlink, hfn, hgn, ite_self]
    by_cases hd : isDir ns.attrs i = true
    · have hne : ¬ (d.inode = i) := by
        intro hh
        rw [hh, hd] at hsd
        cases hsd
      have hne2 : ¬ (i = d.inode) := fun hh => hne hh.symm
      simp only [hne, if_false, Nat.add_zero] at hs
      simp only [hne2, if_false, hs]
      exact hI
    · simp only [hd, Bool.false_eq_true, false_and, if_false, Nat.add_zero] at hI ⊢
      by_cases hi : i = d.inode
      · subst hi
        simp only [if_true] at hs ⊢
        omega
      · have hne : ¬ (d.inode = i) := fun hh => hi hh.symm
        simp only [hne, if_false, Nat.add_zero] at hs
        simp only [hi, if_false, hs]
        exact hI
  · intro i b hb
    obtain ⟨a1, ha1, rfl⟩ := (updAttr_eq_some _ _ _ _ _).mp hb
    obtain ⟨a0, ha0, rfl⟩ := (updAttr_eq_some _ _ _ _ _).mp ha1
    have hb2 := h.bound i a0 ha0
    simp only [apply_ite Attr.Nlink, hfn, hgn, ite_self]
    split <;> omega
  · intro i hi
    simp only at hi ⊢
    rw [updAttr_none_iff, updAttr_none_iff]
    exact h.fresh i hi
  · intro e he
    simp only at he ⊢
    rw [hdf]
    exact h.entry e (List.mem_of_mem_erase he)
  · intro i hi
    simp only at hi ⊢
    rw [hdf] at hi
    have hs := storedRefs_erase d ns.entries hmem i
    have := h.single i hi
    omega
  · simp only
    rw [hdf]
    exact h.root

/-- The state after the removal of an empty directory. -/
theorem Consistent_rmdir (ns : Namespace) (h : ns.Consistent) (d : Dentry)
    (a : Attr) (f g : Attr → Attr)
    (hmem : d ∈ ns.entries) (ha : ns.attrs d.inode = some a) (hdir : a.Typ = TYPE_DIRECTORY)
    (hempty : ∀ e ∈ ns.entries, e.parent ≠ d.inode)
    (hft : ∀ a, (f a).Typ = a.Typ) (hfn : ∀ a, (f a).Nlink = a.Nlink - 2)
    (hgt : ∀ a, (g a).Typ = a.Typ) (hgn : ∀ a, (g a).Nlink = a.Nlink - 1) :
    Namespace.Consistent
      ⟨updAttr (updAttr ns.attrs d.inode f) d.parent g, ns.entries.erase d,
       ns.symlinks, ns.nextInode⟩ := by
  have hdf : isDir (updAttr (updAttr ns.attrs d.inode f) d.parent g) = isDir ns.attrs := by
    rw [isDir_updAttr _ _ _ hgt, isDir_updAttr _ _ _ hft]
  have hsd : isDir ns.attrs d.inode = true := by
    rw [isDir_of_some ha]
    simpa using hdir
  have hpt : d.parent ≠ d.inode := hempty d hmem
  have htr : d.inode ≠ rootInode := (h.entry d hmem).2.1
  have hs1 : storedRefs ns.entries d.inode = 1 := by
    have h1 := h.single d.inode hsd
    have h2 := storedRefs_pos_of_mem hmem
    omega
  have hc0 : childDirRefs ns.attrs ns.entries d.inode = 0 :=
    childDirRefs_eq_zero _ _ _ hempty
  refine ⟨?_, ?_, ?_, ?_, ?_, ?_⟩
  · intro i b hb
    obtain ⟨a1, ha1, rfl⟩ := (updAttr_eq_some _ _ _ _ _).mp hb
    obtain ⟨a0, ha0, rfl⟩ := (updAttr_eq_some _ _ _ _ _).mp ha1
    have hI := h.nlink i a0 ha0
    have hs := storedRefs_erase d ns.entries hmem i
    have hc := childDirRefs_erase ns.attrs d ns.entries hmem i
    simp only [hsd, and_true] at hc
    simp only [Namespace.refCount] at hI ⊢
    rw [hdf, childDirRefs_of_isDir_eq _ _ _ _ hdf]
    simp only [apply_ite Attr.Nlink, hfn, hgn]
    by_cases hi : i = d.inode
    · subst hi
      have hpi : ¬ (d.inode = d.parent) := fun hh => hpt hh.symm
      have hdot : isDir ns.attrs d.inode = true ∧
          (d.inode = rootInode ∨ 0 < storedRefs ns.entries d.inode) :=
        ⟨hsd, Or.inr (by omega)⟩
      rw [if_pos hdot, hs1, hc0, if_neg htr] at hI
      rw [if_pos rfl] at hs
      have hs0 : storedRefs (ns.entries.erase d) d.inode = 0 := by omega
      have hc1 : childDirRefs ns.attrs (ns.entries.erase d) d.inode = 0 :=
        childDirRefs_eq_zero _ _ _ (fun e he => hempty e (List.mem_of_mem_erase he))
      have hndot : ¬ (isDir ns.attrs d.inode = true ∧
          (d.inode = rootInode ∨ 0 < storedRefs (ns.entries.erase d) d.inode)) := by
        rw [hs0]
        rintro ⟨_, hh | hh⟩
        · exact htr hh
        · omega
      rw [if_neg hpi, if_pos rfl, if_neg hndot, hs0, hc1, if_neg htr]
      omega
    · have hne : ¬ (d.inode = i) := fun hh => hi hh.symm
      simp only [hne, if_false, Nat.add_zero] at hs
      simp only [hi, if_false, hs]
      by_cases hip : i = d.parent
      · subst hip
        simp only [if_true] at hc ⊢
        omega
      · have hne2 : ¬ (d.parent = i) := fun hh => hip hh.symm
        simp only [hne2, if_false, Nat.add_zero] at hc
        simp only [hip, if_false, hc]
        exact hI
  · intro i b hb
    obtain ⟨a1, ha1, rfl⟩ := (updAttr_eq_some _ _ _ _ _).mp hb
    obtain ⟨a0, ha0, rfl⟩ := (updAttr_eq_some _ _ _ _ _).mp ha1
    have hb2 := h.bound i a0 ha0
    simp only [apply_ite Attr.Nlink, hfn, hgn]
    split <;> split <;> omega
  · intro i hi
    simp only at hi ⊢
    rw [updAttr_none_iff, updAttr_none_iff]
    exact h.fresh i hi
  · intro e he
    simp only at he ⊢
    rw [hdf]
    exact h.entry e (List.mem_of_mem_erase he)
  · intro i hi
    simp only at hi ⊢
    rw [hdf] at hi
    have hs := storedRefs_erase d ns.entries hmem i
    have := h.single i hi
    omega
  · simp only
    rw [hdf]
    exact h.root

/-- The state after a rename onto a free name: the entry moves, and a directory that changes
its parent takes its `..` along. -/
theorem Consistent_move (ns : Namespace) (h : ns.Consistent) (se : Dentry) (parentDst : Nat)
    (nameDst : String) (sa pd : Attr) (n : Nat) (f1 f2 f3 : Attr → Attr)
    (hmem : se ∈ ns.entries) (hsa : ns.attrs se.inode = some sa)
    (hpd : ns.attrs parentDst = some pd) (hpdir : pd.Typ = TYPE_DIRECTORY)
    (hn : n = if sa.Typ = TYPE_DIRECTORY ∧ se.parent ≠ parentDst then 1 else 0)
    (hroom : n = 1 → pd.Nlink < maxNlink)
    (h1t : ∀ a, (f1 a).Typ = a.Typ) (h1n : ∀ a, (f1 a).Nlink = a.Nlink)
    (h2t : ∀ a, (f2 a).Typ = a.Typ) (h2n : ∀ a, (f2 a).Nlink = a.Nlink - n)
    (h3t : ∀ a, (f3 a).Typ = a.Typ) (h3n : ∀ a, (f3 a).Nlink = a.Nlink + n) :
    Namespace.Consistent
      ⟨updAttr (updAttr (updAttr ns.attrs se.inode f1) se.parent f2) parentDst f3,
       ⟨parentDst, nameDst, se.inode⟩ :: ns.entries.erase se, ns.symlinks, ns.nextInode⟩ := by
  have hdf : isDir (updAttr (updAttr (updAttr ns.attrs se.inode f1) se.parent f2) parentDst f3) =
      isDir ns.attrs := by
    rw [isDir_updAttr _ _ _ h3t, isDir_updAttr _ _ _ h2t, isDir_updAttr _ _ _ h1t]
  have hpdd : isDir ns.attrs parentDst = true := by
    rw [isDir_of_some hpd]
    simpa using hpdir
  have hsd : isDir ns.attrs se.inode = decide (sa.Typ = TYPE_DIRECTORY) := isDir_of_some hsa
  have hst : ∀ i, storedRefs (⟨parentDst, nameDst, se.inode⟩ :: ns.entries.erase se) i =
      storedRefs ns.entries i := by
    intro i
    rw [storedRefs_cons]
    exact storedRefs_erase se ns.entries hmem i
  refine ⟨?_, ?_, ?_, ?_, ?_, ?_⟩
  · intro i b hb
    obtain ⟨a2, ha2, rfl⟩ := (updAttr_eq_some _ _ _ _ _).mp hb
    obtain ⟨a1, ha1, rfl⟩ := (updAttr_eq_some _ _ _ _ _).mp ha2
    obtain ⟨a0, ha0, rfl⟩ := (updAttr_eq_some _ _ _ _ _).mp ha1
    have hI := h.nlink i a0 ha0
    have hc := childDirRefs_erase ns.attrs se ns.entries hmem i
    simp only [Namespace.refCount] at hI ⊢
    rw [hdf, childDirRefs_of_isDir_eq _ _ _ _ hdf, hst, childDirRefs_cons]
    simp only [apply_ite Attr.Nlink, h1n, h2n, h3n, ite_self]
    simp only [hsd, decide_eq_true_eq] at hc ⊢
    by_cases hdir : sa.Typ = TYPE_DIRECTORY
    · simp only [hdir, and_true, true_and] at hc hn ⊢
      by_cases hpp : se.parent = parentDst
      · simp only [hpp, ne_eq, not_true_eq_false, if_false] at hc hn ⊢
        subst hn
        simp only [Nat.sub_zero, Nat.add_zero, ite_self]
        omega
      · simp only [ne_eq, hpp, not_false_eq_true, if_true] at hn
        subst hn
        by_cases h1 : i = se.parent
        · subst h1
          have h3 : ¬ (parentDst = se.parent) := fun hh => hpp hh.symm
          simp only [hpp, h3, eq_self_iff_true, if_true, if_false, Nat.add_zero] at hc ⊢
          omega
        · have h4 : ¬ (se.parent = i) := fun hh => h1 hh.symm
          simp only [h1, h4, if_false, Nat.add_zero] at hc ⊢
          by_cases h2 : i = parentDst
          · subst h2
            simp only [eq_self_iff_true, if_true] at hc ⊢
            omega
          · have h3 : ¬ (parentDst = i) := fun hh => h2 hh.symm
            simp only [h2, h3, if_false, Nat.add_zero]
            omega
    · simp only [hdir, and_false, false_and, if_false, Nat.add_zero] at hc hn ⊢
      subst hn
      simp only [Nat.sub_zero, Nat.add_zero, ite_self]
      omega
  · intro i b hb
    obtain ⟨a2, ha2, rfl⟩ := (updAttr_eq_some _ _ _ _ _).mp hb
    obtain ⟨a1, ha1, rfl⟩ := (updAttr_eq_some _ _ _ _ _).mp ha2
    obtain ⟨a0, ha0, rfl⟩ := (updAttr_eq_some _ _ _ _ _).mp ha1
    have hb2 := h.bound i a0 ha0
    simp only [apply_ite Attr.Nlink, h1n, h2n, h3n, ite_self]
    by_cases h2 : i = parentDst
    · subst h2
      rw [hpd] at ha0
      cases ha0
      simp only [if_true]
      have hn01 : n = 0 ∨ n = 1 := by
        rw [hn]
        split <;> simp
      rcases hn01 with h0 | h1
      · rw [h0]
        split <;> omega
      · have := hroom h1
        rw [h1]
        split <;> omega
    · simp only [h2, if_false]
      split <;> omega
  · intro i hi
    simp only at hi ⊢
    rw [updAttr_none_iff, updAttr_none_iff, updAttr_none_iff]
    exact h.fresh i hi
  · intro e he
    simp only at he ⊢
    rw [hdf]
    rcases List.mem_cons.mp he with he | he
    · subst he
      have := h.entry se hmem
      exact ⟨this.1, this.2.1, hpdd⟩
    · exact h.entry e (List.mem_of_mem_erase he)
  · intro i hi
    simp only at hi ⊢
    rw [hdf] at hi
    rw [hst]
    exact h.single i hi
  · simp only
    rw [hdf]
    exact h.root

/-- The state after a rename onto an existing name: the old destination loses its entry (and,
a directory, its `.`), the moved entry takes its place. -/
theorem Consistent_replace (ns : Namespace) (h : ns.Consistent) (se de : Dentry)
    (nameDst : String) (sa da : Attr) (f0 f1 f2 f3 : Attr → Attr)
    (hsmem : se ∈ ns.entries) (hdmem : de ∈ ns.entries) (hne : de.inode ≠ se.inode)
    (hsa : ns.attrs se.inode = some sa) (hda : ns.attrs de.inode = some da)
    (htypes : sa.Typ = TYPE_DIRECTORY ↔ da.Typ = TYPE_DIRECTORY)
    (hempty : da.Typ = TYPE_DIRECTORY → ∀ e ∈ ns.entries, e.parent ≠ de.inode)
    (h0t : ∀ a, (f0 a).Typ = a.Typ)
    (h0n : ∀ a, (f0 a).Nlink = a.Nlink - (if da.Typ = TYPE_DIRECTORY then 2 else 1))
    (h1t : ∀ a, (f1 a).Typ = a.Typ) (h1n : ∀ a, (f1 a).Nlink = a.Nlink)
    (h2t : ∀ a, (f2 a).Typ = a.Typ)
    (h2n : ∀ a, (f2 a).Nlink = a.Nlink - (if sa.Typ = TYPE_DIRECTORY then 1 else 0))
    (h3t : ∀ a, (f3 a).Typ = a.Typ) (h3n : ∀ a, (f3 a).Nlink = a.Nlink) :
    Namespace.Consistent
      ⟨updAttr (updAttr (updAttr (updAttr ns.attrs de.inode f0) se.inode f1) se.parent f2)
         de.parent f3,
       ⟨de.parent, nameDst, se.inode⟩ :: (ns.entries.erase se).erase de,
       ns.symlinks, ns.nextInode⟩ := by
  have hdf : isDir (updAttr (updAttr (updAttr (updAttr ns.attrs de.inode f0) se.inode f1)
      se.parent f2) de.parent f3) = isDir ns.attrs := by
    rw [isDir_updAttr _ _ _ h3t, isDir_updAttr _ _ _ h2t, isDir_updAttr _ _ _ h1t,
      isDir_updAttr _ _ _ h0t]
  have hsd : isDir ns.attrs se.inode = decide (sa.Typ = TYPE_DIRECTORY) := isDir_of_some hsa
  have hdd : isDir ns.attrs de.inode = decide (da.Typ = TYPE_DIRECTORY) := isDir_of_some hda
  have hdmem2 : de ∈ ns.entries.erase se := by
    have hne2 : de ≠ se := fun hh => hne (by rw [hh])
    exact (List.mem_erase_of_ne hne2).mpr hdmem
  have hst : ∀ i, storedRefs (⟨de.parent, nameDst, se.inode⟩ :: (ns.entries.erase se).erase de) i +
      (if de.inode = i then 1 else 0) = storedRefs ns.entries i := by
    intro i
    have e1 := storedRefs_erase se ns.entries hsmem i
    have e2 := storedRefs_erase de (ns.entries.erase se) hdmem2 i
    have e3 := storedRefs_cons ⟨de.parent, nameDst, se.inode⟩ ((ns.entries.erase se).erase de) i
    simp only at e3
    omega
  have hct : ∀ i, childDirRefs ns.attrs
      (⟨de.parent, nameDst, se.inode⟩ :: (ns.entries.erase se).erase de) i +
      (if se.parent = i ∧ sa.Typ = TYPE_DIRECTORY then 1 else 0) =
      childDirRefs ns.attrs ns.entries i := by
    intro i
    have e1 := childDirRefs_erase ns.attrs se ns.entries hsmem i
    have e2 := childDirRefs_erase ns.attrs de (ns.entries.erase se) hdmem2 i
    have e3 := childDirRefs_cons ns.attrs ⟨de.parent, nameDst, se.inode⟩
      ((ns.entries.erase se).erase de) i
    simp only [hsd, hdd, decide_eq_true_eq] at e1 e2 e3
    by_cases hdir : da.Typ = TYPE_DIRECTORY
    · have hsdir := htypes.mpr hdir
      simp only [hdir, hsdir, and_true] at e1 e2 e3 ⊢
      omega
    · have hsdir : ¬ sa.Typ = TYPE_DIRECTORY := fun hh => hdir (htypes.mp hh)
      simp only [hdir, hsdir, and_false, if_false, Nat.add_zero] at e1 e2 e3 ⊢
      omega
  refine ⟨?_, ?_, ?_, ?_, ?_, ?_⟩
  · intro i b hb
    obtain ⟨a3, ha3, rfl⟩ := (updAttr_eq_some _ _ _ _ _).mp hb
    obtain ⟨a2, ha2, rfl⟩ := (updAttr_eq_some _ _ _ _ _).mp ha3
    obtain ⟨a1, ha1, rfl⟩ := (updAttr_eq_some _ _ _ _ _).mp ha2
    obtain ⟨a0, ha0, rfl⟩ := (updAttr_eq_some _ _ _ _ _).mp ha1
    have hI := h.nlink i a0 ha0
    have hs := hst i
    have hc := hct i
    simp only [Namespace.refCount] at hI ⊢
    rw [hdf, childDirRefs_of_isDir_eq _ _ _ _ hdf]
    simp only [apply_ite Attr.Nlink, h0n, h1n, h2n, h3n, ite_self]
    by_cases hi : i = de.inode
    · subst hi
      simp only [eq_self_iff_true, if_true] at hs ⊢
      by_cases hdir : da.Typ = TYPE_DIRECTORY
      · have hsdir := htypes.mpr hdir
        have hemp := hempty hdir
        have hpi : ¬ (de.inode = se.parent) := fun hh => hemp se hsmem hh.symm
        have hpi2 : ¬ (se.parent = de.inode) := hemp se hsmem
        have htr : de.inode ≠ rootInode := (h.entry de hdmem).2.1
        have hisd : isDir ns.attrs de.inode = true := by
          rw [hdd]
          simpa using hdir
        have hs1 : storedRefs ns.entries de.inode = 1 := by
          have h1 := h.single de.inode hisd
          have h2 := storedRefs_pos_of_mem hdmem
          omega
        have hc0 : childDirRefs ns.attrs ns.entries de.inode = 0 :=
          childDirRefs_eq_zero _ _ _ hemp
        have hdot : isDir ns.attrs de.inode = true ∧
            (de.inode = rootInode ∨ 0 < storedRefs ns.entries de.inode) :=
          ⟨hisd, Or.inr (by omega)⟩
        rw [if_pos hdot, hs1, hc0, if_neg htr] at hI
        have hs0 : storedRefs (⟨de.parent, nameDst, se.inode⟩ ::
            (ns.entries.erase se).erase de) de.inode = 0 := by omega
        have hndot : ¬ (isDir ns.attrs de.inode = true ∧ (de.inode = rootInode ∨
            0 < storedRefs (⟨de.parent, nameDst, se.inode⟩ ::
              (ns.entries.erase se).erase de) de.inode)) := by
          rw [hs0]
          rintro ⟨_, hh | hh⟩
          · exact htr hh
          · omega
        simp only [hpi2, false_and, if_false, Nat.add_zero] at hc
        rw [if_neg hpi, if_neg hndot, hs0, hc, hc0, if_neg htr]
        simp only [hdir, if_true]
        omega
      · have hsdir : ¬ sa.Typ = TYPE_DIRECTORY := fun hh => hdir (htypes.mp hh)
        have hisd : isDir ns.attrs de.inode = false := by
          rw [hdd]
          simpa using hdir
        simp only [hisd, Bool.false_eq_true, false_and, if_false, Nat.add_zero, hsdir,
          and_false, hdir, Nat.sub_zero, ite_self] at hI hc ⊢
        omega
    · have hne3 : ¬ (de.inode = i) := fun hh => hi hh.symm
      simp only [hne3, if_false, Nat.add_zero] at hs
      simp only [hi, if_false, hs]
      by_cases hdir : sa.Typ = TYPE_DIRECTORY
      · simp only [hdir, and_true, if_true] at hc ⊢
        by_cases h1 : i = se.parent
        · subst h1
          simp only [eq_self_iff_true, if_true] at hc ⊢
          omega
        · have h4 : ¬ (se.parent = i) := fun hh => h1 hh.symm
          simp only [h4, if_false, Nat.add_zero] at hc
          simp only [h1, if_false, hc]
          exact hI
      · simp only [hdir, and_false, if_false, Nat.add_zero, Nat.sub_zero, ite_self] at hc ⊢
        rw [hc]
        exact hI
  · intro i b hb
    obtain ⟨a3, ha3, rfl⟩ := (updAttr_eq_some _ _ _ _ _).mp hb
    obtain ⟨a2, ha2, rfl⟩ := (updAttr_eq_some _ _ _ _ _).mp ha3
    obtain ⟨a1, ha1, rfl⟩ := (updAttr_eq_some _ _ _ _ _).mp ha2
    obtain ⟨a0, ha0, rfl⟩ := (updAttr_eq_some _ _ _ _ _).mp ha1
    have hb2 := h.bound i a0 ha0
    simp only [apply_ite Attr.Nlink, h0n, h1n, h2n, h3n, ite_self]
    split <;> split <;> omega
  · intro i hi
    simp only at hi ⊢
    rw [updAttr_none_iff, updAttr_none_iff, updAttr_none_iff, updAttr_none_iff]
    exact h.fresh i hi
  · intro e he
    simp only at he ⊢
    rw [hdf]
    rcases List.mem_cons.mp he with he | he
    · subst he
      have h1 := h.entry se hsmem
      have h2 := h.entry de hdmem
      exact ⟨h1.1, h1.2.1, h2.2.2⟩
    · exact h.entry e (List.mem_of_mem_erase (List.mem_of_mem_erase he))
  · intro i hi
    simp only at hi ⊢
    rw [hdf] at hi
    have hs := hst i
    have := h.single i hi
    omega
  · simp only
    rw [hdf]
    exact h.root

/-! ## Link counts: the operations keep the invariant -/

theorem Consistent_Link (ns : Namespace) (h : ns.Consistent) (ctx : Context)
    (inodeSrc parent : Nat) (name : String) :
    (Link ns ctx inodeSrc parent name).2.Consistent := by
  unfold Link
  split
  · exact h
  · rename_i pa hpa
    split
    · exact h
    · rename_i hpdir
      split
      · exact h
      · split
        · exact h
        · rename_i sa hsa
          split
          · exact h
          · rename_i hsnd
            split
            · exact h
            · split
              · exact h
              · rename_i hroom
                exact Consistent_link ns h inodeSrc parent name sa pa _ _ hsa hsnd
                  (by omega) hpa (by simpa using hpdir) (fun _ => rfl) (fun _ => rfl)
                  (fun _ => rfl) (fun _ => rfl)

theorem Consistent_Unlink (ns : Namespace) (h : ns.Consistent) (ctx : Context)
    (parent : Nat) (name : String) : (Unlink ns ctx parent name).2.Consistent := by
  unfold Unlink
  split
  · exact h
  · split
    · exact h
    · split
      · exact h
      · split
        · exact h
        · rename_i d hd
          split
          · exact h
          · rename_i a ha
            split
            · exact h
            · rename_i hnd
              exact Consistent_unlink ns h d parent a _ _ (lookupEntry_mem hd) ha hnd
                (fun _ => rfl) (fun _ => rfl) (fun _ => rfl) (fun _ => rfl)

theorem Consistent_Rmdir (ns : Namespace) (h : ns.Consistent) (ctx : Context)
    (parent : Nat) (name : String) : (Rmdir ns ctx parent name).2.Consistent := by
  unfold Rmdir
  split
  · exact h
  · split
    · exact h
    · split
      · exact h
      · split
        · exact h
        · rename_i d hd
          have hp := lookupEntry_parent hd
          subst hp
          split
          · exact h
          · rename_i a ha
            split
            · exact h
            · rename_i hdir
              split
              · exact h
              · rename_i hemp
                exact Consistent_rmdir ns h d a _ _ (lookupEntry_mem hd) ha
                  (by simpa using hdir) (hasEntries_false hemp)
                  (fun _ => rfl) (fun _ => rfl) (fun _ => rfl) (fun _ => rfl)

theorem Consistent_Rename (ns : Namespace) (h : ns.Consistent) (ctx : Context)
    (parentSrc : Nat) (nameSrc : String) (parentDst : Nat) (nameDst : String) :
    (Rename ns ctx parentSrc nameSrc parentDst nameDst).2.2.Consistent := by
  unfold Rename
  split
  · rename_i ps pd hps hpd
    split
    · exact h
    · rename_i hdirs
      split
      · exact h
      · split
        · exact h
        · rename_i se hse
          have hp := lookupEntry_parent hse
          subst hp
          split
          · exact h
          · rename_i sa hsa
            split
            · exact h
            · split
              · -- no destination
                dsimp only
                by_cases hroom :
                    (if sa.Typ = TYPE_DIRECTORY ∧ se.parent ≠ parentDst then 1 else 0) = 1 ∧
                      maxNlink ≤ pd.Nlink
                · rw [if_pos hroom]
                  exact h
                · rw [if_neg hroom]
                  exact Consistent_move ns h se parentDst nameDst sa pd
                    (if sa.Typ = TYPE_DIRECTORY ∧ se.parent ≠ parentDst then 1 else 0) _ _ _
                    (lookupEntry_mem hse) hsa hpd
                    (by by_contra hc; exact hdirs (Or.inr hc)) rfl
                    (fun h1 => by
                      by_contra hc
                      exact hroom ⟨h1, by omega⟩)
                    (fun _ => rfl) (fun _ => rfl) (fun _ => rfl) (fun _ => rfl)
                    (fun _ => rfl) (fun _ => rfl)
              · rename_i de hde
                have hp2 := lookupEntry_parent hde
                subst hp2
                split
                · exact h
                · rename_i hne
                  split
                  · exact h
                  · rename_i da hda
                    split
                    · exact h
                    · rename_i hc1
                      split
                      · exact h
                      · rename_i hc2
                        split
                        · exact h
                        · rename_i hc3
                          exact Consistent_replace ns h se de nameDst sa da _ _ _ _
                            (lookupEntry_mem hse) (lookupEntry_mem hde) hne hsa hda
                            (by
                              constructor
                              · intro hs
                                by_contra hd
                                exact hc2 ⟨hs, hd⟩
                              · intro hd
                                by_contra hs
                                exact hc1 ⟨hs, hd⟩)
                            (fun hd => hasEntries_false (fun he => hc3 ⟨hd, he⟩))
                            (fun _ => rfl) (fun _ => rfl) (fun _ => rfl) (fun _ => rfl)
                            (fun _ => rfl) (fun _ => rfl) (fun _ => rfl) (fun _ => rfl)
  · exact h

/-- Every reachable state is consistent. -/
theorem reachable_consistent {ns : Namespace} (h : Reachable ns) : ns.Consistent := by
  induction h with
  | init => exact Consistent_init
  | mknod _ ctx parent name _type mode cumask rdev ih =>
    exact Consistent_create _ ih ctx parent name _type mode cumask rdev 0 none
  | mkdir _ ctx parent name mode cumask copysgid ih =>
    exact Consistent_create _ ih ctx parent name TYPE_DIRECTORY mode cumask 0 copysgid none
  | create _ ctx parent name mode cumask ih =>
    exact Consistent_create _ ih ctx parent name TYPE_FILE mode cumask 0 0 none
  | symlink _ ctx parent name path ih =>
    exact Consistent_create _ ih ctx parent name TYPE_SYMLINK 0o777 0 0 0 (some path)
  | link _ ctx inodeSrc parent name ih => exact Consistent_Link _ ih ctx inodeSrc parent name
  | unlink _ ctx parent name ih => exact Consistent_Unlink _ ih ctx parent name
  | rmdir _ ctx parent name ih => exact Consistent_Rmdir _ ih ctx parent name
  | rename _ ctx parentSrc nameSrc parentDst nameDst ih =>
    exact Consistent_Rename _ ih ctx parentSrc nameSrc parentDst nameDst

/-- In a consistent state the references of a non-directory are its stored entries. -/
theorem refCount_of_nondir {ns : Namespace} (h : ns.Consistent) {i : Nat} {a : Attr}
    (ha : ns.attrs i = some a) (hnd : a.Typ ≠ TYPE_DIRECTORY) :
    ns.refCount i = ns.linkCount i := by
  have hd : isDir ns.attrs i = false := by
    rw [isDir_of_some ha]
    simpa using hnd
  have hr : ¬ (i = rootInode) := by
    intro hh
    rw [hh, h.root] at hd
    cases hd
  have hc : childDirRefs ns.attrs ns.entries i = 0 := by
    apply childDirRefs_eq_zero
    intro d hdm hp
    have := (h.entry d hdm).2.2
    rw [hp, hd] at this
    cases this
  simp [Namespace.refCount, Namespace.linkCount, hd, hr, hc]

/-- C7: in every state reachable by `Mknod`, `Mkdir`, `Create`, `Symlink`, `Link`, `Unlink`,
`Rmdir` and `Rename`, the `Nlink` field of every inode record equals the number of directory
entries, over all parents, that reference the inode (`refCount`: the stored entries and, as the
scenario of the specification counts them, the `.` of a directory and the `..` of its child
directories), and fits the 32 bits of the field; for an inode that is not a directory this is
the number of stored entries that reference it. -/
theorem nlink_eq_reference_count (ns : Namespace) (h : Reachable ns) (i : Nat) (a : Attr)
    (ha : ns.attrs i = some a) :
    a.Nlink = ns.refCount i ∧ a.Nlink < 2 ^ 32 ∧
    (a.Typ ≠ TYPE_DIRECTORY → a.Nlink = ns.linkCount i) := by
  have hc := reachable_consistent h
  refine ⟨hc.nlink i a ha, ?_, ?_⟩
  · have := hc.bound i a ha
    unfold maxNlink at this
    omega
  · intro hnd
    rw [hc.nlink i a ha, refCount_of_nondir hc ha hnd]

/-- Witness of C7: after `Mkdir(root, "d")` the new directory, inode 2, has link count 2 and
two references, its stored entry and its `.`. -/
theorem nlink_eq_reference_count_witness :
    (Mkdir Namespace.init ⟨0, 0, 1, 0, 0⟩ rootInode "d" 0o755 0o022 0).2.2.attrs 2 =
      some ⟨0, TYPE_DIRECTORY, 0o755, 0, 0, 0, 0, 0, 0, 0, 0, 2, 0, 0, true⟩ ∧
    (Mkdir Namespace.init ⟨0, 0, 1, 0, 0⟩ rootInode "d" 0o755 0o022 0).2.2.linkCount 2 = 1 ∧
    (2 : Nat) = (Mkdir Namespace.init ⟨0, 0, 1, 0, 0⟩ rootInode "d" 0o755 0o022 0).2.2.refCount 2 :=
  ⟨by decide, by decide,
   (nlink_eq_reference_count _
     (Reachable.mkdir Reachable.init ⟨0, 0, 1, 0, 0⟩ rootInode "d" 0o755 0o022 0)
     2 ⟨0, TYPE_DIRECTORY, 0o755, 0, 0, 0, 0, 0, 0, 0, 0, 2, 0, 0, true⟩ (by decide)).1⟩

end Meta
